import Mathlib

/-!
Verification of the reference-resolution, dependency-graph, coupling-metric and
complexity-scoring core of `jsp-analyzer.py` (class `UnifiedJSPAnalyzer`).

The Python source is shallowly embedded: strings stay strings, Python `dict`s
become association lists in insertion order (CPython dicts iterate in insertion
order, and an assignment to an existing key keeps its position), `defaultdict(list)`
maps become association lists of lists, floats become rationals, and
`round(x, 2)` becomes `roundTo2` below.  Every definition carries a reference to
the source lines it translates.
-/

set_option maxHeartbeats 1000000
set_option maxRecDepth 8192

namespace JSPAnalyzer

/-! ## Python string primitives -/

/-- Python `s.replace(a, b)` for single characters `a`, `b` (used by the source as
`replace('\\', '/')` and `replace('.', '_')`, both single-character replacements). -/
def charReplace (a b : Char) (s : String) : String :=
  ⟨s.data.map (fun c => if c = a then b else c)⟩

/-- Python `s.startswith(pat)`. -/
def strStartsWith (s pat : String) : Bool :=
  pat.data.isPrefixOf s.data

/-- Python `s.endswith(pat)`. -/
def strEndsWith (s pat : String) : Bool :=
  pat.data.isSuffixOf s.data

/-- Python substring containment test `pat in s`, on character lists. -/
def containsCL (pat : List Char) : List Char → Bool
  | [] => pat.isEmpty
  | c :: rest => pat.isPrefixOf (c :: rest) || containsCL pat rest

/-- Python `pat in s` on strings. -/
def strContains (s pat : String) : Bool :=
  containsCL pat.data s.data

/-- Python `s.lstrip('/')`. -/
def lstripSlash (s : String) : String :=
  ⟨s.data.dropWhile (· = '/')⟩

/-- Python `s.rstrip('/')`. -/
def rstripSlash (s : String) : String :=
  ⟨(s.data.reverse.dropWhile (· = '/')).reverse⟩

/-- Python `s.split('?', 1)[0]`: the part of `s` before the first `'?'`
(the whole of `s` when there is none).  Source line 870. -/
def beforeQuery (s : String) : String :=
  ⟨s.data.takeWhile (· ≠ '?')⟩

/-- Python `s.split(':')[-1]`: the part of `s` after the last `':'`
(the whole of `s` when there is none).  Source line 277. -/
def afterLastColon (s : String) : String :=
  ⟨(s.data.reverse.takeWhile (· ≠ ':')).reverse⟩

/-! ## Python `os.path` primitives (POSIX rules, as the analyzer normalizes all
separators to `/` before comparing) -/

/-- Python `os.path.basename(p)`: everything after the last `'/'`. -/
def pyBasename (s : String) : String :=
  ⟨(s.data.reverse.takeWhile (· ≠ '/')).reverse⟩

/-- Python `os.path.dirname(p)`: the prefix up to (and normally excluding) the last
`'/'`; trailing slashes of the head are stripped unless the head is all slashes. -/
def pyDirname (s : String) : String :=
  let head : List Char := (s.data.reverse.dropWhile (· ≠ '/')).reverse
  if head ≠ [] ∧ ¬ head.all (· = '/') then ⟨(head.reverse.dropWhile (· = '/')).reverse⟩
  else ⟨head⟩

/-- Python `os.path.join(a, b)` for two POSIX path arguments. -/
def pyJoin (a b : String) : String :=
  if strStartsWith b "/" then b
  else if a = "" ∨ strEndsWith a "/" then a ++ b
  else a ++ "/" ++ b

/-- Python `s.split(sep)` for a single-character separator, on character lists
(splits keep empty parts, and the empty string splits to `[[]]`). -/
def splitOnCharCL (sep : Char) : List Char → List (List Char)
  | [] => [[]]
  | c :: rest =>
    match splitOnCharCL sep rest with
    | [] => if c = sep then [[], []] else [[c]]
    | h :: t => if c = sep then [] :: h :: t else (c :: h) :: t

/-- Python `sep.join(parts)` for `sep = '/'`, on character lists. -/
def joinSlash (parts : List (List Char)) : List Char :=
  (parts.intersperse ['/']).flatten

/-- One step of CPython `posixpath.normpath`: process one component against the
accumulated stack of kept components. -/
def normpathStep (initialSlashes : Nat) (acc : List (List Char)) (comp : List Char) :
    List (List Char) :=
  if comp = [] ∨ comp = ['.'] then acc
  else if comp ≠ ['.', '.'] ∨ (initialSlashes = 0 ∧ acc = []) ∨
      (acc ≠ [] ∧ acc.getLast? = some ['.', '.']) then
    acc ++ [comp]
  else if acc ≠ [] then acc.dropLast
  else acc

/-- Python `os.path.normpath(p)` (POSIX): collapse `//`, `.` and `..` components;
an empty path becomes `"."`; exactly two leading slashes are preserved. -/
def pyNormpath (s : String) : String :=
  if s = "" then "."
  else
    let initialSlashes : Nat :=
      if strStartsWith s "//" ∧ ¬ strStartsWith s "///" then 2
      else if strStartsWith s "/" then 1 else 0
    let comps := splitOnCharCL '/' s.data
    let newComps := comps.foldl (normpathStep initialSlashes) []
    let out : List Char := List.replicate initialSlashes '/' ++ joinSlash newComps
    if out = [] then "." else ⟨out⟩

/-- The source's recurring idiom `os.path.normpath(t).replace('\\', '/')`
(lines 873, 886, 930). -/
def normalizePath (s : String) : String :=
  charReplace '\\' '/' (pyNormpath s)

/-! ## Data model -/

/-- Per-file identity as stored in `self.jsp_files` (source lines 168-173).
The redundant `full_path` field is omitted: the core never reads it back. -/
structure FileInfo where
  path : String
  size : Nat
  lastModified : String
deriving DecidableEq

/-- The fact registry `self.jsp_files`: a CPython dict, i.e. an association list
in insertion order with unique keys. -/
abbrev Registry := List (String × FileInfo)

/-- The three include kinds recorded by `_extract_includes` / `_extract_scriptlets`
(source lines 317-378): `<%@ include %>`, `<jsp:include>`, `<c:import>`. -/
inductive IncludeType where
  | directive
  | action
  | cimport
deriving DecidableEq

/-- One entry of `self.includes[file_id]`.  In the source the target string is
stored under the key `'file'`, `'page'` or `'url'` according to the type and read
back under the same key in `build_dependency_graph` (lines 845-854), so a single
`target` field is an exact model.  The `'raw'` field (the whole matched text) is
never read by the core and is omitted. -/
structure IncludeRec where
  itype : IncludeType
  target : String
deriving DecidableEq

/-- One entry of `self.forms[file_id]` (source lines 574-612); the dependency
builder reads only `action` (line 928). -/
structure FormRec where
  action : String
  method : String
  inputCount : Nat
  selectCount : Nat
  textareaCount : Nat
deriving DecidableEq

/-- One entry of `self.custom_tags[file_id]` (source lines 559-572). -/
structure CustomTagUsage where
  pfx : String
  tname : String
  raw : String
deriving DecidableEq

/-- One entry of `self.tag_libraries[file_id]` (source lines 310-315):
a declared `(prefix, uri)` pair. -/
structure TagLibDecl where
  pfx : String
  uri : String
deriving DecidableEq

/-- One record of the dependency log `self.dependencies[file_id]`
(appended at source lines 861, 902, 916, 935, 951, 968).  Optional fields absent
from a given Python dict literal are `none` / `false` here. -/
structure DepRecord where
  target : Option String
  dtype : String
  dynamic : Bool := false
  note : Option String := none
  raw : Option String := none
  tagPfx : Option String := none
  tagName : Option String := none
deriving DecidableEq

/-- The collapsed dependency graph `self.dependency_graph` (an `nx.DiGraph`):
node list plus a duplicate-free edge list, both in insertion order. -/
structure DepGraph where
  nodes : List String
  edges : List (String × String)
deriving DecidableEq

/-- Model of `nx.DiGraph.add_node`: a no-op when the node is already present. -/
def addNode (g : DepGraph) (n : String) : DepGraph :=
  if n ∈ g.nodes then g else { g with nodes := g.nodes ++ [n] }

/-- Model of `nx.DiGraph.add_edge`: inserts missing endpoints and is a no-op on an
existing edge, so at most one edge per ordered pair ever exists. -/
def addEdge (g : DepGraph) (a b : String) : DepGraph :=
  let g := addNode (addNode g a) b
  if (a, b) ∈ g.edges then g else { g with edges := g.edges ++ [(a, b)] }

/-- State threaded through `build_dependency_graph`: the graph under construction
together with the dependency log, flattened to (origin, record) pairs in append
order (the source keys the same records by origin in `self.dependencies`). -/
structure BuildState where
  graph : DepGraph
  deps : List (String × DepRecord)
deriving DecidableEq

/-! ## Include resolution (source lines 844-923)

The loop body for one include record is modelled twice: `processInclude` is the
literal translation (state updates inline at the match sites), and
`resolveIncludeOutcome` is the same decision logic packaged as a pure function of
`(registry, origin, include)` alone; `applyIncludeOutcome` replays the state
updates.  A theorem below proves the two presentations equal, which is the formal
content of the resolver-purity requirement. -/

/-- The dynamic-target marker `'$' '\x7b'` (source line 859 tests
whether the raw target embeds an EL expression). -/
def elMarker : String := "$\x7b"

/-- The dynamic-target marker `<%` (source line 859 tests whether the raw target
embeds a scriptlet). -/
def scrMarker : String := "<%"

/-- Source lines 876-887: the candidate strings the raw include target is matched
under: the normalized target, the normalized target without its leading slashes,
its basename, and (for a relative target with a known caller path) the target
resolved against the caller's directory.  The source collects these in a Python
`set`; they are only ever consumed through `any(...)`, for which a list with
possible duplicates is equivalent. -/
def includeCandidates (callerPath normalizedTarget : String) : List String :=
  [normalizedTarget, lstripSlash normalizedTarget, pyBasename normalizedTarget] ++
    (if callerPath ≠ "" ∧ ¬ strStartsWith normalizedTarget "/" then
      [normalizePath (pyJoin (pyDirname callerPath) normalizedTarget)]
    else [])

/-- Source line 900: the exact/containment test for one registry file path against
the candidate set (`endswith` either way, `endswith` after `lstrip('/')`, or
basename equality). -/
def exactMatchAny (candidates : List String) (targetPath : String) : Bool :=
  let tn := charReplace '\\' '/' targetPath
  let tns := lstripSlash tn
  candidates.any (fun cand =>
    strEndsWith tn cand || strEndsWith cand tn || strEndsWith tns cand || pyBasename tn = cand)

/-- Python `self.jsp_files.get(file_id, {}).get('path', '')` (source lines 882-883). -/
def callerPathOf (reg : Registry) (fid : String) : String :=
  match reg.find? (fun p => p.1 = fid) with
  | some p => p.2.path
  | none => ""

/-- The source's string for an include type when the record is logged
(`include['type']`, values `'directive'`, `'action'`, `'c:import'`). -/
def includeTypeStr : IncludeType → String
  | .directive => "directive"
  | .action => "action"
  | .cimport => "c:import"

/-- Outcome of resolving one include reference: the target was empty (skipped),
dynamic, matched some registry file (directly or by the basename fallback), or
unresolved. -/
inductive IncludeOutcome where
  | skipped
  | dynamic
  | matched (t : String) (viaBasename : Bool)
  | unresolved
deriving DecidableEq

/-- The resolution decision of source lines 856-923 as a pure function of the
registry, the origin id and the include record: dynamic markers first, then the
exact/containment scan over the registry in insertion order, then the basename
fallback scan. -/
def resolveIncludeOutcome (reg : Registry) (fid : String) (inc : IncludeRec) :
    IncludeOutcome :=
  if inc.target = "" then .skipped
  else if strContains inc.target elMarker || strContains inc.target scrMarker then .dynamic
  else
    let normalized := normalizePath (beforeQuery inc.target)
    let candidates := includeCandidates (callerPathOf reg fid) normalized
    match reg.find? (fun p => p.2.path ≠ "" ∧ exactMatchAny candidates p.2.path) with
    | some p => .matched p.1 false
    | none =>
      match reg.find? (fun p => pyBasename p.2.path = pyBasename normalized) with
      | some p => .matched p.1 true
      | none => .unresolved

/-- The dependency-log record appended for a dynamic include (source lines 861-866). -/
def dynamicDepRecord (inc : IncludeRec) : DepRecord :=
  { target := none, dtype := includeTypeStr inc.itype, dynamic := true,
    raw := some inc.target }

/-- The dependency-log record appended for a matched include (source lines 902-906
and, with the `basename_fallback` note, 916-921). -/
def matchedDepRecord (inc : IncludeRec) (t : String) (viaBasename : Bool) : DepRecord :=
  { target := some t, dtype := includeTypeStr inc.itype, raw := some inc.target,
    note := if viaBasename then some "basename_fallback" else none }

/-- Replay on the build state the updates the source performs for a given
resolution outcome: nothing when skipped or unresolved, a log record for dynamic,
and an edge plus a log record for a match. -/
def applyIncludeOutcome (fid : String) (inc : IncludeRec) (o : IncludeOutcome)
    (st : BuildState) : BuildState :=
  match o with
  | .skipped => st
  | .dynamic => { st with deps := st.deps ++ [(fid, dynamicDepRecord inc)] }
  | .matched t vb =>
    { graph := addEdge st.graph fid t,
      deps := st.deps ++ [(fid, matchedDepRecord inc t vb)] }
  | .unresolved => st

/-- Literal translation of the include-processing loop body, source lines 846-923:
read the target (skip when empty), record dynamic targets without resolving, strip
the query string, normalize, build candidates, scan the registry for an
exact/containment match (first match wins, in insertion order), and otherwise scan
again for a basename match; unresolved references leave the state untouched. -/
def processInclude (reg : Registry) (fid : String) (inc : IncludeRec)
    (st : BuildState) : BuildState :=
  if inc.target = "" then st
  else if strContains inc.target elMarker || strContains inc.target scrMarker then
    { st with deps := st.deps ++ [(fid, dynamicDepRecord inc)] }
  else
    let normalized := normalizePath (beforeQuery inc.target)
    let candidates := includeCandidates (callerPathOf reg fid) normalized
    match reg.find? (fun p => p.2.path ≠ "" ∧ exactMatchAny candidates p.2.path) with
    | some p =>
      { graph := addEdge st.graph fid p.1,
        deps := st.deps ++ [(fid, matchedDepRecord inc p.1 false)] }
    | none =>
      match reg.find? (fun p => pyBasename p.2.path = pyBasename normalized) with
      | some p =>
        { graph := addEdge st.graph fid p.1,
          deps := st.deps ++ [(fid, matchedDepRecord inc p.1 true)] }
      | none => st

/-! ## Form-action references (source lines 925-939) -/

/-- Loop body for one form: actions that are empty or start with `javascript:`,
`http:` or `https:` are ignored without a resolver call; otherwise the first
registry file whose path ends with the normalized action gains an edge and a
`form_action` record. -/
def processForm (reg : Registry) (fid : String) (form : FormRec)
    (st : BuildState) : BuildState :=
  if form.action ≠ "" ∧ ¬ (strStartsWith form.action "javascript:" ∨
      strStartsWith form.action "http:" ∨ strStartsWith form.action "https:") then
    match reg.find? (fun p => strEndsWith p.2.path (normalizePath form.action)) with
    | some p =>
      { graph := addEdge st.graph fid p.1,
        deps := st.deps ++ [(fid, { target := some p.1, dtype := "form_action" })] }
    | none => st
  else st

/-! ## Custom-tag resolution (`_resolve_tag_file`, source lines 248-283, and its
call site, lines 941-975) -/

/-- Source line 256: the basenames a tag usage may resolve to. -/
def tagCandidates (tname : String) : List String :=
  [tname ++ ".tag", tname ++ ".tagx", tname]

/-- Strategy 1 of `_resolve_tag_file` (source lines 258-263): the first registry
file whose basename is a candidate and whose path contains `/WEB-INF/tags/`
(with the leading slash: the substring test is literal). -/
def tagStrategyWebInf (reg : Registry) (tname : String) : Option String :=
  (reg.find? (fun p =>
    (tagCandidates tname).contains (pyBasename p.2.path) &&
      strContains p.2.path "/WEB-INF/tags/")).map (·.1)

/-- Strategy 2 of `_resolve_tag_file` (source lines 265-270): the first registry
file anywhere whose basename is a candidate. -/
def tagStrategyBasename (reg : Registry) (tname : String) : Option String :=
  (reg.find? (fun p => (tagCandidates tname).contains (pyBasename p.2.path))).map (·.1)

/-- Strategy 3 of `_resolve_tag_file` (source lines 272-281): for each taglib
declaration of the caller with a nonempty uri, take the last `':'`-segment of the
uri without leading slashes and return the first registry file whose path ends
with `suffix/tname.tag` or `suffix/tname.tagx`. -/
def tagStrategyTaglibUri (reg : Registry) (taglibs : List TagLibDecl)
    (tname : String) : Option String :=
  taglibs.findSome? (fun lib =>
    if lib.uri = "" then none
    else
      let suffix := lstripSlash (afterLastColon lib.uri)
      (reg.find? (fun p =>
        strEndsWith p.2.path (pyJoin suffix (tname ++ ".tag")) ||
          strEndsWith p.2.path (pyJoin suffix (tname ++ ".tagx")))).map (·.1))

/-- `_resolve_tag_file(prefix, tagname, caller_file_id)` (source lines 248-283):
the three strategies in order, first success wins.  The `prefix` parameter is
unused in the source as well; `taglibs` is the caller's declaration list
(`self.tag_libraries[caller_file_id]`, empty when absent). -/
def resolveTagFile (reg : Registry) (taglibs : List TagLibDecl)
    (tname : String) : Option String :=
  match tagStrategyWebInf reg tname with
  | some t => some t
  | none =>
    match tagStrategyBasename reg tname with
    | some t => some t
    | none => tagStrategyTaglibUri reg taglibs tname

/-- Loop body for one custom-tag usage (source lines 942-975): on resolution, an
edge plus a `custom_tag` record; otherwise one more basename scan (skipping empty
paths) appending a `custom_tag_fallback` record; otherwise nothing. -/
def processCustomTag (reg : Registry) (taglibs : List TagLibDecl) (fid : String)
    (usage : CustomTagUsage) (st : BuildState) : BuildState :=
  match resolveTagFile reg taglibs usage.tname with
  | some t =>
    { graph := addEdge st.graph fid t,
      deps := st.deps ++ [(fid,
        { target := some t, dtype := "custom_tag", raw := some usage.raw,
          tagPfx := some usage.pfx, tagName := some usage.tname })] }
  | none =>
    match reg.find? (fun p =>
        p.2.path ≠ "" ∧ (tagCandidates usage.tname).contains (pyBasename p.2.path)) with
    | some p =>
      { graph := addEdge st.graph fid p.1,
        deps := st.deps ++ [(fid,
          { target := some p.1, dtype := "custom_tag_fallback", raw := some usage.raw,
            tagPfx := some usage.pfx, tagName := some usage.tname })] }
    | none => st

/-! ## The graph builder (`build_dependency_graph`, source lines 838-975) -/

/-- Python `self.tag_libraries[fid] if fid in self.tag_libraries else` nothing:
lookup in an association list with `[]` default (iterating an empty list is the
same as skipping the membership test, source line 273). -/
def taglibsOf (taglibsMap : List (String × List TagLibDecl)) (fid : String) :
    List TagLibDecl :=
  match taglibsMap.find? (fun p => p.1 = fid) with
  | some p => p.2
  | none => []

/-- Fold one origin's include list through `processInclude`. -/
def processIncludeList (reg : Registry) (fid : String) (incs : List IncludeRec)
    (st : BuildState) : BuildState :=
  incs.foldl (fun s i => processInclude reg fid i s) st

/-- Fold one origin's form list through `processForm`. -/
def processFormList (reg : Registry) (fid : String) (fs : List FormRec)
    (st : BuildState) : BuildState :=
  fs.foldl (fun s f => processForm reg fid f s) st

/-- Fold one origin's custom-tag usages through `processCustomTag`. -/
def processCustomTagList (reg : Registry) (taglibs : List TagLibDecl) (fid : String)
    (usages : List CustomTagUsage) (st : BuildState) : BuildState :=
  usages.foldl (fun s u => processCustomTag reg taglibs fid u s) st

/-- `build_dependency_graph` (source lines 838-975): register a node for every
registry file, then process all include references, then all form actions, then
all custom-tag usages, each map iterated in insertion order. -/
def buildDependencyGraph (reg : Registry)
    (includesMap : List (String × List IncludeRec))
    (formsMap : List (String × List FormRec))
    (customTagsMap : List (String × List CustomTagUsage))
    (taglibsMap : List (String × List TagLibDecl)) : BuildState :=
  customTagsMap.foldl
    (fun s e => processCustomTagList reg (taglibsOf taglibsMap e.1) e.1 e.2 s)
    (formsMap.foldl (fun s e => processFormList reg e.1 e.2 s)
      (includesMap.foldl (fun s e => processIncludeList reg e.1 e.2 s)
        (BuildState.mk
          (DepGraph.mk
            (reg.foldl (fun ns p => if p.1 ∈ ns then ns else ns ++ [p.1]) []) [])
          [])))

/-! ## Rounding

Python `round(x, 2)` on the analyzer's float values, idealized over `ℚ`: multiply
by 100, round to the nearest integer, divide by 100.  (CPython rounds binary
floats half to even; no theorem below depends on behaviour at exact half-hundredth
ties, where the two conventions can differ.) -/

/-- Model of Python `round(x, 2)` over the rationals. -/
def roundTo2 (q : ℚ) : ℚ :=
  ((round (q * 100) : ℤ) : ℚ) / 100

/-! ## Coupling metrics (`calculate_coupling_metrics`, source lines 977-1005) -/

/-- In-degree of a node on the collapsed graph (`nx.DiGraph.in_degree`). -/
def inDegree (g : DepGraph) (n : String) : Nat :=
  (g.edges.filter (fun e => e.2 = n)).length

/-- Out-degree of a node on the collapsed graph (`nx.DiGraph.out_degree`). -/
def outDegree (g : DepGraph) (n : String) : Nat :=
  (g.edges.filter (fun e => e.1 = n)).length

/-- The successor list of a node, in edge-insertion order. -/
def successors (g : DepGraph) (n : String) : List String :=
  (g.edges.filter (fun e => e.1 = n)).map (·.2)

/-- Fuel-bounded reachability along graph edges: `true` iff some walk of at most
`fuel` edges leads from `a` to `b`. -/
def reachableWithin (g : DepGraph) : Nat → String → String → Bool
  | 0, a, b => a = b
  | fuel + 1, a, b => a = b || (successors g a).any (fun m => reachableWithin g fuel m b)

/-- Model of the cycle test of source lines 988-993:
`any(node in cycle for cycle in nx.simple_cycles(self.dependency_graph))`.
`nx.simple_cycles` enumerates every elementary circuit of the digraph, so the
Python expression holds exactly when the node lies on some simple cycle, which is
equivalent to the node reaching itself through at least one edge; `simple_cycles`
raises no exception on a digraph, so the `except: pass` arm never fires.  Walks
can be shortened to repetition-free ones, so `2 * |edges|` steps of fuel suffice;
`cycleFlag_iff_inSimpleCycle` below proves this model equal to literal
simple-cycle membership. -/
def hasCyclicFlag (g : DepGraph) (n : String) : Bool :=
  (successors g n).any (fun m => reachableWithin g (2 * g.edges.length) m n)

/-- A simple cycle (elementary circuit) of the graph: a nonempty, repetition-free
node list whose consecutive pairs, including the wrap-around pair, are all edges.
A one-element list is a self-loop. -/
def SimpleCycle (g : DepGraph) : List String → Prop
  | [] => False
  | x :: t => List.Chain (fun a b => (a, b) ∈ g.edges) x (t ++ [x]) ∧ (x :: t).Nodup

/-- Per-node record of `self.coupling_metrics[node]` (source lines 995-1001):
in/out/total degree, instability rounded to two decimals, cycle flag. -/
structure CouplingRec where
  inDeg : Nat
  outDeg : Nat
  total : Nat
  instability : ℚ
  cyclic : Bool
deriving DecidableEq

/-- Loop body of `calculate_coupling_metrics` for one node (source lines 979-1001):
`instability = out/total if total > 0 else 0`, stored rounded to 2 decimals. -/
def couplingFor (g : DepGraph) (n : String) : CouplingRec :=
  let i := inDegree g n
  let o := outDegree g n
  let t := i + o
  { inDeg := i, outDeg := o, total := t,
    instability := roundTo2 (if t > 0 then (o : ℚ) / (t : ℚ) else 0),
    cyclic := hasCyclicFlag g n }

/-- `calculate_coupling_metrics` over all graph nodes, in node-insertion order. -/
def calculateCouplingMetrics (g : DepGraph) : List (String × CouplingRec) :=
  g.nodes.map (fun n => (n, couplingFor g n))

/-! ## Per-file extracted facts and metrics (`analyze_file`, lines 158-202, and
`_calculate_file_metrics`, lines 717-805)

The extraction layer (regex/HTML scanning, §6 of the spec) supplies per-file
structural facts; the core consumes the resulting counts.  `ExtractedFacts`
bundles, for one file, every extracted quantity the modelled core reads:
reference lists for the graph builder and the counts entering the metrics.
`securityIssueCount` is the number of issues `_detect_security_issues`
(lines 807-836) appends for the file's content. -/

structure ExtractedFacts where
  includes : List IncludeRec := []
  forms : List FormRec := []
  customTags : List CustomTagUsage := []
  taglibs : List TagLibDecl := []
  scriptletComplexities : List Nat := []
  lineCount : Nat := 0
  elCount : Nat := 0
  jstlTags : List String := []
  htmlElementCount : Nat := 0
  scriptBlockCount : Nat := 0
  securityIssueCount : Nat := 0
deriving DecidableEq

/-- Number of custom-tag usages, `len(self.custom_tags[file_id])` (line 740). -/
def customTagCount (ex : ExtractedFacts) : Nat :=
  ex.customTags.length

/-- The aggregate scriptlet complexity, `sum(s.get('complexity', 0) ...)`
(source line 779). -/
def astComplexitySum (ex : ExtractedFacts) : Nat :=
  ex.scriptletComplexities.sum

/-- The per-file cyclomatic base, source lines 782-786:
`1 + ast_scriptlet_complexity` plus one per JSTL tag named
`if`, `when`, `choose` or `forEach`. -/
def cyclomaticBase (ex : ExtractedFacts) : Nat :=
  1 + astComplexitySum ex +
    (ex.jstlTags.filter (fun t => t ∈ ["if", "when", "choose", "forEach"])).length

/-- The weighted composite of source lines 792-802, before rounding, as a function
of the counts used and of the value `len(self.security_issues[file_id])` read at
line 775 (`secTotal`). -/
def jspComplexityRaw (ex : ExtractedFacts) (secTotal : Nat) : ℚ :=
  (astComplexitySum ex : ℚ) * (3 / 10) +
    (ex.scriptletComplexities.length : ℚ) * (3 / 20) +
    (ex.elCount : ℚ) * (1 / 20) +
    (ex.jstlTags.length : ℚ) * (1 / 20) +
    (customTagCount ex : ℚ) * (1 / 20) +
    (ex.htmlElementCount : ℚ) * (1 / 1000) +
    (ex.scriptBlockCount : ℚ) * (1 / 10) +
    (cyclomaticBase ex : ℚ) * (3 / 20) +
    (secTotal : ℚ) * (3 / 20)

/-- The metric fields the later pipeline stages read back from
`self.metrics[file_id]`: line count (`'コード行数'`, for clustering), the stored
security total (`'セキュリティ問題合計'`), the cyclomatic base (`'循環的複雑度'`)
and the rounded composite (`'JSP複雑度指標'`). -/
structure MetricsRec where
  lineCount : Nat
  securityTotal : Nat
  cyclomatic : Nat
  jspComplexity : ℚ
deriving DecidableEq

/-- `_calculate_file_metrics` (source lines 717-805) restricted to the fields
above, as a function of the extracted facts and of the security-issue count
recorded for the file at the moment the metrics are computed. -/
def calculateFileMetrics (ex : ExtractedFacts) (secTotal : Nat) : MetricsRec :=
  { lineCount := ex.lineCount,
    securityTotal := secTotal,
    cyclomatic := cyclomaticBase ex,
    jspComplexity := roundTo2 (jspComplexityRaw ex secTotal) }

/-- The composite score exactly as claim C1 and spec §4.4 state it: the same
weighted formula with `securityIssueCount` equal to the number of security issues
detected for the file in the run, rounded to 2 decimal places.  (Definition taken
from the spec's words, for comparison with `calculateFileMetrics`.) -/
def specCompositeScore (ex : ExtractedFacts) : ℚ :=
  roundTo2 (jspComplexityRaw ex ex.securityIssueCount)

/-! ## The analyzer state and `analyze_file` (source lines 158-202)

CPython dict/`defaultdict(list)` maps become association lists: assigning to an
existing key replaces its value in place, appending extends the value in place,
and a fresh key goes to the end. -/

/-- Python `d[k] = v` on a dict modelled as an insertion-ordered association
list: replace in place when the key exists, append otherwise. -/
def dictSet {α : Type} (m : List (String × α)) (k : String) (v : α) :
    List (String × α) :=
  match m with
  | [] => [(k, v)]
  | (k0, v0) :: rest =>
    if k0 = k then (k, v) :: rest else (k0, v0) :: dictSet rest k v

/-- Python `d[k]` on a `defaultdict(list)`: the stored list, `[]` when absent. -/
def dictGetList {α : Type} (m : List (String × List α)) (k : String) : List α :=
  match m.find? (fun p => p.1 = k) with
  | some p => p.2
  | none => []

/-- Python `d[k].extend(xs)` (equivalently, a run of `append`s) on a
`defaultdict(list)`, also materializing the entry when `xs` is empty, as a bare
`d[k]` access does. -/
def dictExtend {α : Type} (m : List (String × List α)) (k : String) (xs : List α) :
    List (String × List α) :=
  dictSet m k (dictGetList m k ++ xs)

/-- The analyzer fields touched by the modelled core: the file registry, the
per-file reference maps consumed by the graph builder, the security-issue counts
(`len(self.security_issues[fid])`) and the metrics map.  The remaining
`defaultdict` fact maps of `__init__` follow the same append pattern and are
never read by the claims under verification. -/
structure AnalyzerState where
  jspFiles : Registry := []
  includes : List (String × List IncludeRec) := []
  forms : List (String × List FormRec) := []
  customTags : List (String × List CustomTagUsage) := []
  taglibs : List (String × List TagLibDecl) := []
  securityCounts : List (String × Nat) := []
  metrics : List (String × MetricsRec) := []
deriving DecidableEq

/-- One discovered file presented to `analyze_file`: its project-relative path,
size, timestamp and the facts the extraction layer derives from its content. -/
structure FileInput where
  path : String
  size : Nat
  lastModified : String
  facts : ExtractedFacts
deriving DecidableEq

/-- Source line 165: `file_id = relative_path.replace('\\', '/').replace('.', '_')`. -/
def fileIdOf (relativePath : String) : String :=
  charReplace '.' '_' (charReplace '\\' '/' relativePath)

/-- Python `len(self.security_issues[file_id])` on the modelled counts. -/
def securityCountOf (m : List (String × Nat)) (k : String) : Nat :=
  match m.find? (fun p => p.1 = k) with
  | some p => p.2
  | none => 0

/-- `analyze_file` (source lines 158-202) at the fact level, in source order:
store the registry entry under the derived id (overwriting any previous entry for
the same id), append the extracted reference facts under that id, compute and
store the metrics — reading the security count as it stands at that moment
(line 775) — and only then record the file's security issues (line 195). -/
def analyzeFile (st : AnalyzerState) (f : FileInput) : AnalyzerState :=
  let fid := fileIdOf f.path
  let st1 := { st with
    jspFiles := dictSet st.jspFiles fid
      { path := f.path, size := f.size, lastModified := f.lastModified },
    includes := dictExtend st.includes fid f.facts.includes,
    forms := dictExtend st.forms fid f.facts.forms,
    customTags := dictExtend st.customTags fid f.facts.customTags,
    taglibs := if f.facts.taglibs.isEmpty then st.taglibs
      else dictExtend st.taglibs fid f.facts.taglibs }
  let m := calculateFileMetrics f.facts (securityCountOf st1.securityCounts fid)
  { st1 with
    metrics := dictSet st1.metrics fid m,
    securityCounts := dictSet st1.securityCounts fid
      (securityCountOf st1.securityCounts fid + f.facts.securityIssueCount) }

/-- The per-file analysis pass of `analyze_project` (source lines 129-137). -/
def runAnalysis (inputs : List FileInput) : AnalyzerState :=
  inputs.foldl analyzeFile {}

/-! ## Clustering (`compute_clusters_and_plot`, source lines 1148-1189) -/

/-- Maximum of a value list (`np.max`; the caller guarantees nonemptiness, and on
`[]` we return `0`, a case the source never reaches because it returns early on an
empty metrics map). -/
def listMax (xs : List ℚ) : ℚ :=
  match xs with
  | [] => 0
  | x :: rest => rest.foldl max x

/-- Element access `s[i]` with the `0` default (never exercised out of range by
`percentileQ` on a nonempty list). -/
def atIdx (s : List ℚ) (i : ℤ) : ℚ :=
  if h : 0 ≤ i ∧ i.toNat < s.length then s.get ⟨i.toNat, h.2⟩ else 0

/-- `np.percentile(xs, p)` with the default linear interpolation, idealized over
`ℚ`: sort, take rank `(n-1)·p/100`, interpolate between the neighbouring order
statistics. -/
def percentileQ (xs : List ℚ) (p : ℚ) : ℚ :=
  let s := xs.mergeSort (fun a b => decide (a ≤ b))
  let n := s.length
  let h : ℚ := ((n : ℚ) - 1) * p / 100
  let lo : ℤ := ⌊h⌋
  if lo + 1 < (n : ℤ) then atIdx s lo + (h - (lo : ℚ)) * (atIdx s (lo + 1) - atIdx s lo)
  else atIdx s lo

/-- Source lines 1168-1169: the tertile thresholds of one axis;
`np.percentile(v, [33.33, 66.66])` when more than two values exist, else the pair
`(max, max)`. -/
def tertileThresholds (xs : List ℚ) : ℚ × ℚ :=
  if xs.length > 2 then (percentileQ xs (3333 / 100), percentileQ xs (6666 / 100))
  else (listMax xs, listMax xs)

/-- Source lines 1176-1177: bucket a value against `(lower, upper)` thresholds as
`0` (≤ lower), `1` (≤ upper) or `2`. -/
def bucketOf (thresh : ℚ × ℚ) (v : ℚ) : Nat :=
  if v ≤ thresh.1 then 0 else if v ≤ thresh.2 then 1 else 2

/-- The clustering pass (source lines 1159-1181) on the metrics map: collect the
line counts (`x`) and composite scores (`y`) in map order, compute both threshold
pairs, and assign each file `cluster_id = complexityBucket * 3 + sizeBucket`.
The descriptive label of lines 1182-1189 is a pure formatting of the same two
bucket indices and is not modelled. -/
def computeClusters (ms : List (String × MetricsRec)) : List (String × Nat) :=
  let xs := ms.map (fun m => ((m.2.lineCount : ℚ)))
  let ys := ms.map (fun m => m.2.jspComplexity)
  let xt := tertileThresholds xs
  let yt := tertileThresholds ys
  ms.map (fun m =>
    (m.1, bucketOf yt m.2.jspComplexity * 3 + bucketOf xt ((m.2.lineCount : ℚ))))

/-! ## The full pipeline (`analyze_project`, source lines 123-156, plus the
clustering pass invoked from `main`) -/

/-- Everything the deterministic core produces from one run's inputs: the built
graph and dependency log, the coupling metrics and the cluster assignments. -/
structure CoreOutput where
  build : BuildState
  coupling : List (String × CouplingRec)
  metrics : List (String × MetricsRec)
  clusters : List (String × Nat)
deriving DecidableEq

/-- The core pipeline as one pure function of the discovered files and their
extracted facts: per-file analysis, graph construction, coupling metrics and
clustering, in the source's pass order. -/
def runCore (inputs : List FileInput) : CoreOutput :=
  let st := runAnalysis inputs
  let bs := buildDependencyGraph st.jspFiles st.includes st.forms st.customTags st.taglibs
  { build := bs,
    coupling := calculateCouplingMetrics bs.graph,
    metrics := st.metrics,
    clusters := computeClusters st.metrics }

/-! ## The directive-include extractors (source lines 317-356)

`_extract_includes` scans the raw content with
`<%@\s*include\s+file\s*=\s*["\']([^"\']+)["\'][^%>]*%>` (line 320);
`_extract_scriptlets` scans the comment/script-stripped content with
`<%@\s*include\s+([^%>]+)%>` (IGNORECASE, line 348) and keeps matches whose
parsed attributes contain a truthy `file` or `page` value.  Both regexes are
deterministic enough for a direct scanner embedding: every character class is
disjoint from what follows it, so greedy matching with the single backtracking
case of `\s+([^%>]+)` (when the run after `include` is all whitespace) is the
exact semantics.  `re.finditer` yields leftmost, non-overlapping matches; the
scanners below try each start position from the left and resume after a match.
The `<jsp:include>`/`<c:import>` patterns of both methods concern the `action`
and `c:import` reference kinds and are not part of this model. -/

/-- Python regex `\s` on the ASCII range (the analyzer's patterns only ever match
ASCII whitespace in the modelled contents). -/
def isPySpace (c : Char) : Bool :=
  c = ' ' || c = '\t' || c = '\n' || c = '\r' || c = '\x0b' || c = '\x0c'

/-- Python regex `\w` on the ASCII range. -/
def isWordChar (c : Char) : Bool :=
  c.isAlphanum || c = '_'

/-- Match a literal at the head of the input, returning the remainder. -/
def expectLit (lit l : List Char) : Option (List Char) :=
  if lit.isPrefixOf l then some (l.drop lit.length) else none

/-- Case-insensitive prefix test (Python `re.IGNORECASE` on ASCII literals). -/
def ciIsPrefixOf : List Char → List Char → Bool
  | [], _ => true
  | _ :: _, [] => false
  | p :: ps, c :: cs => p.toLower = c.toLower && ciIsPrefixOf ps cs

/-- Case-insensitive `expectLit`. -/
def ciExpectLit (lit l : List Char) : Option (List Char) :=
  if ciIsPrefixOf lit l then some (l.drop lit.length) else none

/-- Fail unless the input's first character satisfies `p` (the regex `\s+`
lookahead before the following `\s*` skip). -/
def headSatisfies (p : Char → Bool) : List Char → Option Unit
  | [] => none
  | c :: _ => if p c then some () else none

/-- The tail of the line-320 regex after the closing quote: `[^%>]*%>`. -/
def matchTail1 (cap t6 : List Char) : Option (List Char × List Char) :=
  (expectLit "%>".data (t6.dropWhile (fun c => ¬ (c = '%' ∨ c = '>')))).map
    (fun t7 => (cap, t7))

/-- The quoted-capture part of the line-320 regex: `["\']([^"\']+)["\']`
followed by `matchTail1`. -/
def matchQuoted1 : List Char → Option (List Char × List Char)
  | [] => none
  | q :: t5 =>
    if q = '"' ∨ q = '\'' then
      (if t5.takeWhile (fun c => ¬ (c = '"' ∨ c = '\'')) = [] then none
       else
         match t5.drop (t5.takeWhile (fun c => ¬ (c = '"' ∨ c = '\''))).length with
         | [] => none
         | _ :: t6 => matchTail1 (t5.takeWhile (fun c => ¬ (c = '"' ∨ c = '\''))) t6)
    else none

/-- Attempt the include-directive regex of `_extract_includes` (source line 320),
`<%@\s*include\s+file\s*=\s*["\']([^"\']+)["\'][^%>]*%>`, at the head of `l`; on
success return the captured `file` value and the remainder after the whole match.
Every character class of the pattern is disjoint from the literal that follows
it, so greedy runs followed by literal checks are its exact semantics. -/
def matchDirective1 (l : List Char) : Option (List Char × List Char) :=
  (expectLit "<%@".data l).bind (fun t1 =>
    (expectLit "include".data (t1.dropWhile isPySpace)).bind (fun t2 =>
      (headSatisfies isPySpace t2).bind (fun _ =>
        (expectLit "file".data (t2.dropWhile isPySpace)).bind (fun t3 =>
          (expectLit "=".data (t3.dropWhile isPySpace)).bind (fun t4 =>
            matchQuoted1 (t4.dropWhile isPySpace))))))

/-- The capture of `\s+([^%>]+)` at the head of `r`, the maximal `[^%>]` run:
greedy `\s+` then the nonempty remainder of `r`, backtracking one character when
`r` is all whitespace (possible only when `r` has at least two characters). -/
def captureOf2 (r : List Char) : Option (List Char) :=
  if (r.takeWhile isPySpace).length = 0 then none
  else if (r.takeWhile isPySpace).length < r.length then
    some (r.drop (r.takeWhile isPySpace).length)
  else if 2 ≤ r.length then some (r.drop (r.length - 1))
  else none

/-- Attempt the looser include-directive regex of `_extract_scriptlets`
(source line 348, IGNORECASE), `<%@\s*include\s+([^%>]+)%>`, at the head of `l`;
on success return the captured attribute text and the remainder. -/
def matchDirective2 (l : List Char) : Option (List Char × List Char) :=
  (expectLit "<%@".data l).bind (fun t1 =>
    (ciExpectLit "include".data (t1.dropWhile isPySpace)).bind (fun t2 =>
      (captureOf2 (t2.takeWhile (fun c => ¬ (c = '%' ∨ c = '>')))).bind (fun cap =>
        (expectLit "%>".data
          (t2.drop (t2.takeWhile (fun c => ¬ (c = '%' ∨ c = '>'))).length)).map
          (fun t7 => (cap, t7)))))

/-- The unquoted value alternative `([^\s>]+)` of the attribute regex. -/
def matchAttrUnquoted (t4 : List Char) : Option (List Char × List Char) :=
  if (t4.takeWhile (fun c => ¬ (isPySpace c ∨ c = '>'))) = [] then none
  else some (t4.takeWhile (fun c => ¬ (isPySpace c ∨ c = '>')),
    t4.drop (t4.takeWhile (fun c => ¬ (isPySpace c ∨ c = '>'))).length)

/-- The three value alternatives of the attribute regex:
`"([^"]*)"`, `\x27([^\x27]*)\x27`, then the unquoted `([^\s>]+)`; a quoted
alternative whose closing quote is missing falls through to the unquoted one,
which may then consume the opening quote itself. -/
def matchAttrValue (t4 : List Char) : Option (List Char × List Char) :=
  match t4 with
  | [] => matchAttrUnquoted []
  | c :: t5 =>
    if c = '"' then
      match t5.drop (t5.takeWhile (· ≠ '"')).length with
      | c2 :: t6 =>
        if c2 = '"' then some (t5.takeWhile (· ≠ '"'), t6) else matchAttrUnquoted t4
      | [] => matchAttrUnquoted t4
    else if c = '\'' then
      match t5.drop (t5.takeWhile (· ≠ '\'')).length with
      | c2 :: t6 =>
        if c2 = '\'' then some (t5.takeWhile (· ≠ '\''), t6) else matchAttrUnquoted t4
      | [] => matchAttrUnquoted t4
    else matchAttrUnquoted t4

/-- Attempt the attribute regex of `_parse_attributes` (source line 225),
`(\w+)\s*=\s*(?:"([^"]*)"|\x27([^\x27]*)\x27|([^\s>]+))`, at the head of `l`;
on success return the `(key, value)` pair and the remainder.  (Shrinking the
greedy `\w+` can never help: the following character would then be a word
character, where the pattern demands `\s*=`.) -/
def matchAttrAt (l : List Char) : Option ((List Char × List Char) × List Char) :=
  if l.takeWhile isWordChar = [] then none
  else
    match (l.drop (l.takeWhile isWordChar).length).dropWhile isPySpace with
    | c :: t3 =>
      if c = '=' then
        (matchAttrValue (t3.dropWhile isPySpace)).map
          (fun vr => ((l.takeWhile isWordChar, vr.1), vr.2))
      else none
    | [] => none

/-- The `re.finditer` scan of `_parse_attributes`: leftmost matches, resuming
after each; fuel bounds the recursion and the wrapper supplies the input length,
which suffices because every step consumes at least one character. -/
def parseAttrsAux : Nat → List Char → List (List Char × List Char)
  | 0, _ => []
  | _ + 1, [] => []
  | fuel + 1, c :: rest =>
    match matchAttrAt (c :: rest) with
    | some (kv, r) => kv :: parseAttrsAux fuel r
    | none => parseAttrsAux fuel rest

/-- `_parse_attributes` (source lines 221-229) restricted to the attribute list;
the source stores the pairs in a dict, so a later duplicate key overwrites an
earlier one — lookups below therefore take the last occurrence. -/
def parseAttrs (l : List Char) : List (List Char × List Char) :=
  parseAttrsAux l.length l

/-- Python `dict(pairs).get(k)`: the value of the last pair with the given key. -/
def attrLookup (attrs : List (List Char × List Char)) (k : List Char) :
    Option (List Char) :=
  ((attrs.filter (fun p => p.1 = k)).map (fun p => p.2)).getLast?

/-- Source lines 349-351: `f = attrs.get('file') or attrs.get('page')`, with
Python truthiness (`or` skips an empty string, and the subsequent `if f:` drops a
falsy result). -/
def pickFileOrPage (attrs : List (List Char × List Char)) : Option (List Char) :=
  match attrLookup attrs "file".data with
  | some v =>
    if v ≠ [] then some v
    else
      (match attrLookup attrs "page".data with
       | some w => if w ≠ [] then some w else none
       | none => none)
  | none =>
    match attrLookup attrs "page".data with
    | some w => if w ≠ [] then some w else none
    | none => none

/-- The raw-content scan of `_extract_includes` for directive includes: all
captures of the line-320 regex, left to right. -/
def scanIncludes1Aux : Nat → List Char → List (List Char)
  | 0, _ => []
  | _ + 1, [] => []
  | fuel + 1, c :: rest =>
    match matchDirective1 (c :: rest) with
    | some (cap, r) => cap :: scanIncludes1Aux fuel r
    | none => scanIncludes1Aux fuel rest

/-- Directive-include captures of `_extract_includes` on the raw content. -/
def scanIncludes1 (l : List Char) : List (List Char) :=
  scanIncludes1Aux l.length l

/-- The clean-content scan of `_extract_scriptlets` for directive includes: for
each line-348 regex match, parse the attribute text and keep a truthy `file` or
`page` value. -/
def scanIncludes2Aux : Nat → List Char → List (List Char)
  | 0, _ => []
  | _ + 1, [] => []
  | fuel + 1, c :: rest =>
    match matchDirective2 (c :: rest) with
    | some (cap, r) =>
      (match pickFileOrPage (parseAttrs cap) with
       | some f => f :: scanIncludes2Aux fuel r
       | none => scanIncludes2Aux fuel r)
    | none => scanIncludes2Aux fuel rest

/-- Directive-include captures of `_extract_scriptlets` on (stripped) content. -/
def scanIncludes2 (l : List Char) : List (List Char) :=
  scanIncludes2Aux l.length l

/-! ## Comment and script stripping (`_strip_comments_and_scripts`,
source lines 231-236): three `re.sub(..., '')` passes, each removing leftmost
non-overlapping `opener…closer` spans (non-greedy, so up to the earliest closer). -/

/-- Drop through the earliest occurrence of `close`, returning the remainder
after it (`none` when `close` never occurs). -/
def dropThrough (close : List Char) : List Char → Option (List Char)
  | [] => none
  | c :: rest =>
    if close.isPrefixOf (c :: rest) then some ((c :: rest).drop close.length)
    else dropThrough close rest

/-- Case-insensitive `dropThrough` (for `</script>` under IGNORECASE). -/
def dropThroughCI (close : List Char) : List Char → Option (List Char)
  | [] => none
  | c :: rest =>
    if ciIsPrefixOf close (c :: rest) then some ((c :: rest).drop close.length)
    else dropThroughCI close rest

/-- One `re.sub(opener.*?closer, '')` pass with fixed literal delimiters: at each
position, a span starting there is removed when the closer occurs later,
otherwise the character is kept.  Fuel bounds the recursion; the wrapper passes
the input length, sufficient because every step consumes at least one character
(the delimiters used are nonempty). -/
def removeDelimitedAux (opn close : List Char) : Nat → List Char → List Char
  | 0, l => l
  | _ + 1, [] => []
  | fuel + 1, c :: rest =>
    if opn.isPrefixOf (c :: rest) then
      match dropThrough close ((c :: rest).drop opn.length) with
      | some r => removeDelimitedAux opn close fuel r
      | none => c :: removeDelimitedAux opn close fuel rest
    else c :: removeDelimitedAux opn close fuel rest

/-- One stripping pass over a whole content. -/
def removeDelimited (opn close l : List Char) : List Char :=
  removeDelimitedAux opn close l.length l

/-- Match `<script[^>]*>` (IGNORECASE) at the head of the input, returning the
remainder after the `>`. -/
def matchScriptOpen (l : List Char) : Option (List Char) :=
  match ciExpectLit "<script".data l with
  | none => none
  | some t1 => expectLit ">".data (t1.dropWhile (· ≠ '>'))

/-- The `re.sub(r'<script[^>]*>.*?</script>', '', s)` pass (IGNORECASE, DOTALL). -/
def removeScriptAux : Nat → List Char → List Char
  | 0, l => l
  | _ + 1, [] => []
  | fuel + 1, c :: rest =>
    match matchScriptOpen (c :: rest) with
    | some t =>
      (match dropThroughCI "</script>".data t with
       | some r => removeScriptAux fuel r
       | none => c :: removeScriptAux fuel rest)
    | none => c :: removeScriptAux fuel rest

/-- `_strip_comments_and_scripts` (source lines 231-236): strip JSP comments,
then HTML comments, then `<script>` blocks. -/
def stripCommentsAndScripts (l : List Char) : List Char :=
  removeScriptAux
    (removeDelimited "<!--".data "-->".data
      (removeDelimited "<%--".data "--%>".data l)).length
    (removeDelimited "<!--".data "-->".data
      (removeDelimited "<%--".data "--%>".data l))

/-- The directive-include records a file's content contributes to
`self.includes[file_id]`, in source order: first the `_extract_includes` pass on
the raw content (line 320), then the `_extract_scriptlets` pass on the stripped
content (lines 345-356). -/
def extractDirectiveIncludes (content : List Char) : List IncludeRec :=
  (scanIncludes1 content).map (fun f => { itype := .directive, target := ⟨f⟩ }) ++
    (scanIncludes2 (stripCommentsAndScripts content)).map
      (fun f => { itype := .directive, target := ⟨f⟩ })

/-! ## The general shape of a static directive include

For the C10 analysis we parameterize the text a static directive include can
take under the line-320 regex: `<%@`, optional whitespace, `include`, mandatory
whitespace, `file`, optional whitespace, `=`, optional whitespace, a quote, the
nonempty value, a quote, any `[^%>]*` filler, `%>` — followed by the rest of the
file.  The side conditions under which both extractors agree are collected in
`DirectiveShape`. -/

/-- The text `<%@ w1 include w2 file w3 = w4 q F q e %>` followed by `suf`,
written with explicit character conses. -/
def directiveIncludeText (w1 w2 w3 w4 : List Char) (q : Char) (F e suf : List Char) :
    List Char :=
  '<' :: '%' :: '@' ::
    (w1 ++ ('i' :: 'n' :: 'c' :: 'l' :: 'u' :: 'd' :: 'e' ::
      (w2 ++ ('f' :: 'i' :: 'l' :: 'e' ::
        (w3 ++ ('=' ::
          (w4 ++ (q :: (F ++ (q :: (e ++ ('%' :: '>' :: suf))))))))))))

/-- Side conditions on the parts of a directive include under which the raw
extractor and the stripped-content extractor both capture exactly `F`: the
whitespace runs are Python `\s` characters with the mandatory one nonempty, the
quotes match, the value is nonempty and free of quotes, `%`, `>` and `<`, and
the filler is free of `%`, `>`, `<` and `=` (an `=` inside the filler could
create a second attribute and change the parsed `file` value). -/
structure DirectiveShape (w1 w2 w3 w4 : List Char) (q : Char) (F e : List Char) :
    Prop where
  w1Space : ∀ c ∈ w1, isPySpace c = true
  w2Space : ∀ c ∈ w2, isPySpace c = true
  w2Ne : w2 ≠ []
  w3Space : ∀ c ∈ w3, isPySpace c = true
  w4Space : ∀ c ∈ w4, isPySpace c = true
  qQuote : q = '"' ∨ q = '\''
  fNe : F ≠ []
  fChars : ∀ c ∈ F, ¬ (c = '"' ∨ c = '\'' ∨ c = '%' ∨ c = '>' ∨ c = '<')
  eChars : ∀ c ∈ e, ¬ (c = '%' ∨ c = '>' ∨ c = '<' ∨ c = '=')

/-! # Theorems -/

/-! ## Rounding facts -/

theorem roundTo2_zero : roundTo2 0 = 0 := by
  simp [roundTo2]

theorem roundTo2_one : roundTo2 1 = 1 := by
  have h : ((1 : ℚ) * 100) = ((100 : ℤ) : ℚ) := by norm_num
  rw [roundTo2, h, round_intCast]
  norm_num

theorem roundTo2_mono {a b : ℚ} (h : a ≤ b) : roundTo2 a ≤ roundTo2 b := by
  have h100 : a * 100 ≤ b * 100 := by nlinarith
  have hr : round (a * 100) ≤ round (b * 100) := by
    rw [round_eq, round_eq]
    exact Int.floor_le_floor (by linarith)
  rw [roundTo2, roundTo2]
  have : ((round (a * 100) : ℤ) : ℚ) ≤ ((round (b * 100) : ℤ) : ℚ) := by exact_mod_cast hr
  linarith

theorem roundTo2_nonneg {a : ℚ} (h : 0 ≤ a) : 0 ≤ roundTo2 a := by
  have := roundTo2_mono h
  rwa [roundTo2_zero] at this

theorem roundTo2_le_one {a : ℚ} (h : a ≤ 1) : roundTo2 a ≤ 1 := by
  have := roundTo2_mono h
  rwa [roundTo2_one] at this

/-! ## C6: instability -/

/-- C6: for every node of the collapsed dependency graph, the computed
instability equals out-degree divided by (in-degree + out-degree) rounded to two
decimal places when that denominator is nonzero, and equals exactly `0` when the
total coupling is `0`; consequently instability always lies in `[0, 1]`. -/
theorem C6_instability_formula_and_bounds (g : DepGraph) (n : String) :
    (couplingFor g n).instability =
      (if (couplingFor g n).total = 0 then 0
       else roundTo2 ((outDegree g n : ℚ) / (((couplingFor g n).total : ℚ)))) ∧
    0 ≤ (couplingFor g n).instability ∧ (couplingFor g n).instability ≤ 1 := by
  have htot : (couplingFor g n).total = inDegree g n + outDegree g n := rfl
  have hinst : (couplingFor g n).instability =
      roundTo2 (if inDegree g n + outDegree g n > 0 then
        (outDegree g n : ℚ) / ((inDegree g n + outDegree g n : ℕ) : ℚ) else 0) := rfl
  by_cases h0 : inDegree g n + outDegree g n = 0
  · rw [hinst, htot]
    simp [h0, roundTo2_zero]
  · have hpos : 0 < inDegree g n + outDegree g n := Nat.pos_of_ne_zero h0
    have hq : (0 : ℚ) < ((inDegree g n + outDegree g n : ℕ) : ℚ) := by
      exact_mod_cast hpos
    have hratio0 : (0 : ℚ) ≤ (outDegree g n : ℚ) / ((inDegree g n + outDegree g n : ℕ) : ℚ) :=
      div_nonneg (by positivity) (le_of_lt hq)
    have hratio1 : (outDegree g n : ℚ) / ((inDegree g n + outDegree g n : ℕ) : ℚ) ≤ 1 := by
      rw [div_le_one hq]
      exact_mod_cast Nat.le_add_left _ _
    constructor
    · rw [hinst, htot]
      simp only [if_neg h0, if_pos hpos]
    · rw [hinst]
      rw [if_pos hpos]
      exact ⟨roundTo2_nonneg hratio0, roundTo2_le_one hratio1⟩

/-! ## C1: the composite score and the security term -/

/-- C1: `analyze_file` computes the metrics (line 192) before it detects the
file's security issues (line 195), so the stored composite `JSP複雑度指標` is the
claimed weighted formula evaluated with a security count of `0`, not with the
count detected for the file in the run.  Failing input: a single file `a.jsp`
whose content contains one detected security issue (e.g. one
`executeQuery("..." + ...)` occurrence) and no other extracted facts; the run
stores `0.15` (weights `0.15·cyclomaticBase` with base `1`), while the claimed
formula yields `0.30` (adding `0.15·1` for the security issue).  The run's final
security count for the file is `1`, so the stored score differs from the claim. -/
theorem C1_security_term_read_before_detection :
    (runAnalysis [⟨"a.jsp", 100, "t", { securityIssueCount := 1 }⟩]).metrics =
      [("a_jsp", calculateFileMetrics { securityIssueCount := 1 } 0)] ∧
    (calculateFileMetrics ({ securityIssueCount := 1 } : ExtractedFacts) 0).jspComplexity
      = 3 / 20 ∧
    specCompositeScore { securityIssueCount := 1 } = 3 / 10 ∧
    (calculateFileMetrics ({ securityIssueCount := 1 } : ExtractedFacts) 0).jspComplexity
      ≠ specCompositeScore { securityIssueCount := 1 } ∧
    securityCountOf
      (runAnalysis [⟨"a.jsp", 100, "t", { securityIssueCount := 1 }⟩]).securityCounts
      "a_jsp" = 1 := by
  have h2 : (calculateFileMetrics ({ securityIssueCount := 1 } : ExtractedFacts) 0).jspComplexity
      = 3 / 20 := by
    norm_num [calculateFileMetrics, jspComplexityRaw, roundTo2, astComplexitySum,
      cyclomaticBase, customTagCount, round_eq]
  have h3 : specCompositeScore { securityIssueCount := 1 } = 3 / 10 := by
    norm_num [specCompositeScore, calculateFileMetrics, jspComplexityRaw, roundTo2,
      astComplexitySum, cyclomaticBase, customTagCount, round_eq]
  refine ⟨rfl, h2, h3, ?_, by decide⟩
  rw [h2, h3]
  norm_num

/-! ## C9: file identity -/

/-- C9: the file id is the normalized relative path with every `.` replaced by
`_` (source line 165), so the mapping is not injective: the distinct paths
`a.jsp` and `a_jsp` share the id `a_jsp`; analyzing both makes the later file's
registry entry overwrite the earlier one's `(path, size, timestamp)` while the
extracted facts of both files accumulate under the one id. -/
theorem C9_file_id_not_injective :
    fileIdOf "a.jsp" = "a_jsp" ∧
    fileIdOf "a_jsp" = "a_jsp" ∧
    ("a.jsp" : String) ≠ "a_jsp" ∧
    (runAnalysis
      [⟨"a.jsp", 10, "t1", { includes := [⟨.directive, "x.jsp"⟩] }⟩,
       ⟨"a_jsp", 20, "t2", { includes := [⟨.directive, "y.jsp"⟩] }⟩]).jspFiles =
      [("a_jsp", { path := "a_jsp", size := 20, lastModified := "t2" })] ∧
    dictGetList
      (runAnalysis
        [⟨"a.jsp", 10, "t1", { includes := [⟨.directive, "x.jsp"⟩] }⟩,
         ⟨"a_jsp", 20, "t2", { includes := [⟨.directive, "y.jsp"⟩] }⟩]).includes
      "a_jsp" = [⟨.directive, "x.jsp"⟩, ⟨.directive, "y.jsp"⟩] := by
  refine ⟨by decide, by decide, by decide, by decide, by decide⟩

/-! ## Resolver factorization and dependency-log invariants -/

/-- The include-processing loop body equals the pure resolution decision applied
to the state: the outcome depends only on `(registry, origin, include)`, never on
the accumulated graph or log. -/
theorem processInclude_eq_applyOutcome (reg : Registry) (fid : String)
    (inc : IncludeRec) (st : BuildState) :
    processInclude reg fid inc st =
      applyIncludeOutcome fid inc (resolveIncludeOutcome reg fid inc) st := by
  unfold processInclude resolveIncludeOutcome
  by_cases h1 : inc.target = ""
  · simp [h1, applyIncludeOutcome]
  · simp only [h1, if_false, ite_false]
    by_cases h2 : (strContains inc.target elMarker || strContains inc.target scrMarker) = true
    · simp [h2, applyIncludeOutcome]
    · simp only [h2, if_false, Bool.false_eq_true, ite_false]
      split
      · simp [applyIncludeOutcome]
      · split <;> simp [applyIncludeOutcome]

/-- Any dependency record appended by the include loop is dynamic or carries a
resolved target; unresolved references append nothing. -/
theorem depRecordInv_processInclude (reg : Registry) (fid : String)
    (inc : IncludeRec) (st : BuildState)
    (h : ∀ p ∈ st.deps, p.2.dynamic = true ∨ p.2.target ≠ none) :
    ∀ p ∈ (processInclude reg fid inc st).deps,
      p.2.dynamic = true ∨ p.2.target ≠ none := by
  rw [processInclude_eq_applyOutcome]
  cases hout : resolveIncludeOutcome reg fid inc with
  | skipped => simpa [applyIncludeOutcome] using h
  | dynamic =>
    intro p hp
    simp only [applyIncludeOutcome, List.mem_append, List.mem_singleton] at hp
    rcases hp with hp | hp
    · exact h p hp
    · subst hp
      exact Or.inl rfl
  | matched t vb =>
    intro p hp
    simp only [applyIncludeOutcome, List.mem_append, List.mem_singleton] at hp
    rcases hp with hp | hp
    · exact h p hp
    · subst hp
      exact Or.inr (by simp [matchedDepRecord])
  | unresolved => simpa [applyIncludeOutcome] using h

/-- Form-action records always carry a resolved target. -/
theorem depRecordInv_processForm (reg : Registry) (fid : String) (form : FormRec)
    (st : BuildState)
    (h : ∀ p ∈ st.deps, p.2.dynamic = true ∨ p.2.target ≠ none) :
    ∀ p ∈ (processForm reg fid form st).deps,
      p.2.dynamic = true ∨ p.2.target ≠ none := by
  unfold processForm
  split
  · split
    · intro p hp
      simp only [List.mem_append, List.mem_singleton] at hp
      rcases hp with hp | hp
      · exact h p hp
      · subst hp
        exact Or.inr (by simp)
    · exact h
  · exact h

/-- Custom-tag records always carry a resolved target. -/
theorem depRecordInv_processCustomTag (reg : Registry) (taglibs : List TagLibDecl)
    (fid : String) (usage : CustomTagUsage) (st : BuildState)
    (h : ∀ p ∈ st.deps, p.2.dynamic = true ∨ p.2.target ≠ none) :
    ∀ p ∈ (processCustomTag reg taglibs fid usage st).deps,
      p.2.dynamic = true ∨ p.2.target ≠ none := by
  unfold processCustomTag
  split
  · intro p hp
    simp only [List.mem_append, List.mem_singleton] at hp
    rcases hp with hp | hp
    · exact h p hp
    · subst hp
      exact Or.inr (by simp)
  · split
    · intro p hp
      simp only [List.mem_append, List.mem_singleton] at hp
      rcases hp with hp | hp
      · exact h p hp
      · subst hp
        exact Or.inr (by simp)
    · exact h

/-- A `foldl` of invariant-preserving steps preserves the log invariant. -/
theorem depRecordInv_foldl (α : Type) (step : BuildState → α → BuildState)
    (hstep : ∀ st a, (∀ p ∈ st.deps, p.2.dynamic = true ∨ p.2.target ≠ none) →
      ∀ p ∈ (step st a).deps, p.2.dynamic = true ∨ p.2.target ≠ none) :
    ∀ (l : List α) (st : BuildState),
      (∀ p ∈ st.deps, p.2.dynamic = true ∨ p.2.target ≠ none) →
      ∀ p ∈ (l.foldl step st).deps, p.2.dynamic = true ∨ p.2.target ≠ none := by
  intro l
  induction l with
  | nil => intro st h; simpa using h
  | cons a t ih =>
    intro st h
    exact ih (step st a) (hstep st a h)

/-! ## C2: unresolved references and the dependency log -/

/-- C2 counterexample: a non-dynamic include whose target matches no registry
file reaches the terminal `unresolved` state, and the loop appends no dependency
record at all — the state, log included, is returned unchanged, contradicting the
claim that unresolved references are still logged. -/
theorem C2_counterexample_unresolved_not_logged :
    resolveIncludeOutcome [("a_jsp", { path := "a.jsp", size := 1, lastModified := "t" })]
      "a_jsp" { itype := .directive, target := "missing.jsp" } = .unresolved ∧
    processInclude [("a_jsp", { path := "a.jsp", size := 1, lastModified := "t" })]
      "a_jsp" { itype := .directive, target := "missing.jsp" }
      { graph := { nodes := ["a_jsp"], edges := [] }, deps := [] } =
      { graph := { nodes := ["a_jsp"], edges := [] }, deps := [] } := by
  refine ⟨by decide, by decide⟩

/-- C2 amended: for every non-dynamic reference that resolves to no registry file
(terminal state `unresolved`), no graph edge is added and no record is appended
to the dependency log either — the build state is unchanged; consequently the
dependency log contains only records that are dynamic or carry a resolved target,
so unresolved references are absent from it. -/
theorem C2_amended_unresolved_appends_nothing :
    (∀ (reg : Registry) (fid : String) (inc : IncludeRec) (st : BuildState),
      resolveIncludeOutcome reg fid inc = .unresolved →
      processInclude reg fid inc st = st) ∧
    (∀ (reg : Registry) (incM : List (String × List IncludeRec))
        (fM : List (String × List FormRec)) (cM : List (String × List CustomTagUsage))
        (tM : List (String × List TagLibDecl)),
      ∀ p ∈ (buildDependencyGraph reg incM fM cM tM).deps,
        p.2.dynamic = true ∨ p.2.target ≠ none) := by
  constructor
  · intro reg fid inc st h
    rw [processInclude_eq_applyOutcome, h]
    rfl
  · intro reg incM fM cM tM
    unfold buildDependencyGraph
    refine depRecordInv_foldl _ _ ?_ cM _ ?_
    · intro st a h
      unfold processCustomTagList
      exact depRecordInv_foldl _ _
        (fun st2 u h2 => depRecordInv_processCustomTag reg _ a.1 u st2 h2) a.2 st h
    · refine depRecordInv_foldl _ _ ?_ fM _ ?_
      · intro st a h
        unfold processFormList
        exact depRecordInv_foldl _ _
          (fun st2 f h2 => depRecordInv_processForm reg a.1 f st2 h2) a.2 st h
      · refine depRecordInv_foldl _ _ ?_ incM _ ?_
        · intro st a h
          unfold processIncludeList
          exact depRecordInv_foldl _ _
            (fun st2 i h2 => depRecordInv_processInclude reg a.1 i st2 h2) a.2 st h
        · intro p hp
          simp at hp

/-- C2 amended witness: at the concrete unresolved input of the counterexample,
the first part of the amended theorem applies and returns the state unchanged. -/
theorem C2_amended_witness :
    processInclude [("a_jsp", { path := "a.jsp", size := 1, lastModified := "t" })]
      "a_jsp" { itype := .directive, target := "missing.jsp" }
      { graph := { nodes := ["a_jsp"], edges := [] }, deps := [] } =
      { graph := { nodes := ["a_jsp"], edges := [] }, deps := [] } :=
  C2_amended_unresolved_appends_nothing.1
    [("a_jsp", { path := "a.jsp", size := 1, lastModified := "t" })] "a_jsp"
    { itype := .directive, target := "missing.jsp" }
    { graph := { nodes := ["a_jsp"], edges := [] }, deps := [] } (by decide)

/-! ## C5: dynamic references -/

/-- C5: an include reference whose raw target embeds `'$' '\x7b'` or `<%` is
recorded in the dependency log as dynamic with a null target, no graph edge is
added, and no resolution is attempted — the loop body's entire effect is that one
log record. -/
theorem C5_dynamic_reference_logged_without_edge (reg : Registry) (fid : String)
    (inc : IncludeRec) (st : BuildState)
    (h : strContains inc.target elMarker = true ∨ strContains inc.target scrMarker = true) :
    processInclude reg fid inc st =
      { st with deps := st.deps ++ [(fid, dynamicDepRecord inc)] } ∧
    (dynamicDepRecord inc).target = none ∧
    (dynamicDepRecord inc).dynamic = true ∧
    (processInclude reg fid inc st).graph = st.graph := by
  have hne : inc.target ≠ "" := by
    intro he
    rcases h with h | h <;> rw [he] at h <;> exact absurd h (by decide)
  have hdyn : (strContains inc.target elMarker || strContains inc.target scrMarker) = true := by
    rcases h with h | h <;> simp [h]
  have hmain : processInclude reg fid inc st =
      { st with deps := st.deps ++ [(fid, dynamicDepRecord inc)] } := by
    unfold processInclude
    simp [hne, hdyn]
  refine ⟨hmain, rfl, rfl, ?_⟩
  rw [hmain]

/-- C5 witness: scenario C of the spec — an include of `"$\x7bctx\x7d/page.jsp"`
is logged as dynamic with a null target and produces no edge. -/
theorem C5_witness :
    processInclude [("a_jsp", { path := "a.jsp", size := 1, lastModified := "t" })]
      "a_jsp" { itype := .action, target := "$\x7bctx\x7d/page.jsp" }
      { graph := { nodes := ["a_jsp"], edges := [] }, deps := [] } =
      { graph := { nodes := ["a_jsp"], edges := [] },
        deps := [("a_jsp", dynamicDepRecord
          { itype := .action, target := "$\x7bctx\x7d/page.jsp" })] } :=
  (C5_dynamic_reference_logged_without_edge
    [("a_jsp", { path := "a.jsp", size := 1, lastModified := "t" })] "a_jsp"
    { itype := .action, target := "$\x7bctx\x7d/page.jsp" }
    { graph := { nodes := ["a_jsp"], edges := [] }, deps := [] }
    (Or.inl (by decide))).1

/-! ## C3: degenerate tertile thresholds -/

theorem le_foldl_max (rest : List ℚ) : ∀ x : ℚ, x ≤ rest.foldl max x := by
  induction rest with
  | nil => intro x; exact le_refl x
  | cons a t ih =>
    intro x
    exact le_trans (le_max_left x a) (ih (max x a))

theorem mem_le_foldl_max (rest : List ℚ) : ∀ x : ℚ, ∀ y ∈ rest, y ≤ rest.foldl max x := by
  induction rest with
  | nil => intro x y hy; simp at hy
  | cons a t ih =>
    intro x y hy
    rcases List.mem_cons.1 hy with h | h
    · subst h
      exact le_trans (le_max_right x y) (le_foldl_max t (max x y))
    · exact ih (max x a) y h

theorem le_listMax (xs : List ℚ) (x : ℚ) (hx : x ∈ xs) : x ≤ listMax xs := by
  cases xs with
  | nil => simp at hx
  | cons a t =>
    rcases List.mem_cons.1 hx with h | h
    · subst h
      exact le_foldl_max t x
    · exact mem_le_foldl_max t a x h

/-- C3 counterexample: with exactly two files, of (lineCount, score) `(10, 1)` and
`(20, 2)`, both thresholds degenerate to the maxima `20` and `2`, yet every value
satisfies `v ≤ lower threshold`, so each file lands in bucket `0` — not in the
claimed top bucket `2` — and both cluster ids are `0`. -/
theorem C3_counterexample_bottom_not_top_bucket :
    tertileThresholds [(10 : ℚ), 20] = (20, 20) ∧
    bucketOf (tertileThresholds [(10 : ℚ), 20]) 10 = 0 ∧
    bucketOf (tertileThresholds [(10 : ℚ), 20]) 20 = 0 ∧
    bucketOf (tertileThresholds [(10 : ℚ), 20]) 10 ≠ 2 ∧
    computeClusters
      [("a", { lineCount := 10, securityTotal := 0, cyclomatic := 1, jspComplexity := 1 }),
       ("b", { lineCount := 20, securityTotal := 0, cyclomatic := 1, jspComplexity := 2 })] =
      [("a", 0), ("b", 0)] := by
  refine ⟨?_, ?_, ?_, ?_, ?_⟩ <;>
    norm_num [tertileThresholds, listMax, bucketOf, computeClusters, percentileQ]

/-- C3 amended: when a run contains at most two files, both tertile thresholds of
each axis degenerate to the maximum observed value on that axis, and every file
is thereby placed in the bottom bucket (bucket `0`) of each axis — every value is
`≤` the lower threshold — so all cluster ids are `0`. -/
theorem C3_amended_le_two_files_bottom_bucket (ms : List (String × MetricsRec))
    (_h1 : ms ≠ []) (h2 : ms.length ≤ 2) :
    tertileThresholds (ms.map (fun m => ((m.2.lineCount : ℚ)))) =
      (listMax (ms.map (fun m => ((m.2.lineCount : ℚ)))),
       listMax (ms.map (fun m => ((m.2.lineCount : ℚ))))) ∧
    tertileThresholds (ms.map (fun m => m.2.jspComplexity)) =
      (listMax (ms.map (fun m => m.2.jspComplexity)),
       listMax (ms.map (fun m => m.2.jspComplexity))) ∧
    (computeClusters ms).map (fun p => p.2) = List.replicate ms.length 0 := by
  have hxlen : (ms.map (fun m => ((m.2.lineCount : ℚ)))).length ≤ 2 := by
    simpa using h2
  have hylen : (ms.map (fun m => m.2.jspComplexity)).length ≤ 2 := by
    simpa using h2
  have hx : tertileThresholds (ms.map (fun m => ((m.2.lineCount : ℚ)))) =
      (listMax (ms.map (fun m => ((m.2.lineCount : ℚ)))),
       listMax (ms.map (fun m => ((m.2.lineCount : ℚ))))) := by
    unfold tertileThresholds
    rw [if_neg]
    omega
  have hy : tertileThresholds (ms.map (fun m => m.2.jspComplexity)) =
      (listMax (ms.map (fun m => m.2.jspComplexity)),
       listMax (ms.map (fun m => m.2.jspComplexity))) := by
    unfold tertileThresholds
    rw [if_neg]
    omega
  refine ⟨hx, hy, ?_⟩
  rw [List.eq_replicate_iff]
  constructor
  · simp [computeClusters]
  · intro b hb
    simp only [computeClusters, List.map_map, List.mem_map, Function.comp] at hb
    obtain ⟨m, hm, hb⟩ := hb
    have hbx : bucketOf (tertileThresholds (ms.map (fun m => ((m.2.lineCount : ℚ)))))
        ((m.2.lineCount : ℚ)) = 0 := by
      rw [hx]
      unfold bucketOf
      rw [if_pos]
      exact le_listMax _ _ (List.mem_map.2 ⟨m, hm, rfl⟩)
    have hby : bucketOf (tertileThresholds (ms.map (fun m => m.2.jspComplexity)))
        m.2.jspComplexity = 0 := by
      rw [hy]
      unfold bucketOf
      rw [if_pos]
      exact le_listMax _ _ (List.mem_map.2 ⟨m, hm, rfl⟩)
    rw [← hb, hbx, hby]

/-- C3 amended witness: the two-file run of the counterexample satisfies the
hypotheses, and the amended theorem places both files in bucket `0` on both
axes (cluster ids all `0`). -/
theorem C3_amended_witness :
    (computeClusters
      [("a", { lineCount := 10, securityTotal := 0, cyclomatic := 1, jspComplexity := 1 }),
       ("b", { lineCount := 20, securityTotal := 0, cyclomatic := 1, jspComplexity := 2 })]).map
        (fun p => p.2) = List.replicate 2 0 :=
  (C3_amended_le_two_files_bottom_bucket
    [("a", { lineCount := 10, securityTotal := 0, cyclomatic := 1, jspComplexity := 1 }),
     ("b", { lineCount := 20, securityTotal := 0, cyclomatic := 1, jspComplexity := 2 })]
    (by decide) (by decide)).2.2

/-! ## C4: custom-tag resolution inside WEB-INF/tags -/

/-- C4 counterexample: in scenario B — a file `A.jsp` using `ui:button`,
declaring the taglib `(ui, /WEB-INF/tags/ui)`, with the only candidate tag file
at registry path `WEB-INF/tags/ui/button.tag` (and no `button.*` basename outside
the WEB-INF/tags tree) — resolution does produce that tag file, but through the
project-wide basename scan (strategy 2): the WEB-INF/tags priority branch finds
nothing because the substring test `'/WEB-INF/tags/' in path` needs a leading
slash the registry-relative path lacks, and the basename scan fires before the
taglib-uri branch is ever consulted, so the resolution method is not
`taglib-uri` as claimed. -/
theorem C4_counterexample_method_not_taglib_uri :
    resolveTagFile
      [("A_jsp", { path := "A.jsp", size := 1, lastModified := "t" }),
       ("WEB-INF/tags/ui/button_tag",
        { path := "WEB-INF/tags/ui/button.tag", size := 1, lastModified := "t" })]
      [{ pfx := "ui", uri := "/WEB-INF/tags/ui" }] "button" =
      some "WEB-INF/tags/ui/button_tag" ∧
    tagStrategyWebInf
      [("A_jsp", { path := "A.jsp", size := 1, lastModified := "t" }),
       ("WEB-INF/tags/ui/button_tag",
        { path := "WEB-INF/tags/ui/button.tag", size := 1, lastModified := "t" })]
      "button" = none ∧
    tagStrategyBasename
      [("A_jsp", { path := "A.jsp", size := 1, lastModified := "t" }),
       ("WEB-INF/tags/ui/button_tag",
        { path := "WEB-INF/tags/ui/button.tag", size := 1, lastModified := "t" })]
      "button" = some "WEB-INF/tags/ui/button_tag" ∧
    tagStrategyTaglibUri
      [("A_jsp", { path := "A.jsp", size := 1, lastModified := "t" }),
       ("WEB-INF/tags/ui/button_tag",
        { path := "WEB-INF/tags/ui/button.tag", size := 1, lastModified := "t" })]
      [{ pfx := "ui", uri := "/WEB-INF/tags/ui" }] "button" =
      some "WEB-INF/tags/ui/button_tag" ∧
    (([("A_jsp", { path := "A.jsp", size := 1, lastModified := "t" }),
       ("WEB-INF/tags/ui/button_tag",
        { path := "WEB-INF/tags/ui/button.tag", size := 1, lastModified := "t" })] :
      Registry).all
      (fun p => !(tagCandidates "button").contains (pyBasename p.2.path) ||
        strContains p.2.path "WEB-INF/tags")) = true := by
  refine ⟨by decide, by decide, by decide, by decide, by decide⟩

/-- C4 amended: whenever the WEB-INF/tags priority branch finds nothing and the
project-wide basename scan finds the tag file, the custom-tag reference resolves
to that file through the basename branch — the taglib-uri branch is never
consulted — and the builder adds the edge with a `custom_tag` record.  In
scenario B with the tag file at registry path `WEB-INF/tags/ui/button.tag`, this
is what happens: the priority branch fails (its substring test requires a leading
`/WEB-INF/tags/`), the basename scan succeeds, and the method is the basename
branch rather than `taglib-uri`. -/
theorem C4_amended_resolved_via_basename_branch (reg : Registry)
    (tl : List TagLibDecl) (fid : String) (usage : CustomTagUsage) (t : String)
    (st : BuildState)
    (h1 : tagStrategyWebInf reg usage.tname = none)
    (h2 : tagStrategyBasename reg usage.tname = some t) :
    resolveTagFile reg tl usage.tname = some t ∧
    processCustomTag reg tl fid usage st =
      { graph := addEdge st.graph fid t,
        deps := st.deps ++ [(fid,
          { target := some t, dtype := "custom_tag", raw := some usage.raw,
            tagPfx := some usage.pfx, tagName := some usage.tname })] } := by
  have hres : resolveTagFile reg tl usage.tname = some t := by
    unfold resolveTagFile
    rw [h1, h2]
  refine ⟨hres, ?_⟩
  unfold processCustomTag
  rw [hres]

/-- C4 amended witness: scenario B's concrete registry — the tag file resolves
via the basename branch and the edge plus `custom_tag` record are produced. -/
theorem C4_amended_witness :
    processCustomTag
      [("A_jsp", { path := "A.jsp", size := 1, lastModified := "t" }),
       ("WEB-INF/tags/ui/button_tag",
        { path := "WEB-INF/tags/ui/button.tag", size := 1, lastModified := "t" })]
      [{ pfx := "ui", uri := "/WEB-INF/tags/ui" }] "A_jsp"
      { pfx := "ui", tname := "button", raw := "<ui:button" }
      { graph := { nodes := ["A_jsp", "WEB-INF/tags/ui/button_tag"], edges := [] },
        deps := [] } =
      { graph := addEdge
          { nodes := ["A_jsp", "WEB-INF/tags/ui/button_tag"], edges := [] }
          "A_jsp" "WEB-INF/tags/ui/button_tag",
        deps := [("A_jsp",
          { target := some "WEB-INF/tags/ui/button_tag", dtype := "custom_tag",
            raw := some "<ui:button", tagPfx := some "ui",
            tagName := some "button" })] } :=
  (C4_amended_resolved_via_basename_branch
    [("A_jsp", { path := "A.jsp", size := 1, lastModified := "t" }),
     ("WEB-INF/tags/ui/button_tag",
      { path := "WEB-INF/tags/ui/button.tag", size := 1, lastModified := "t" })]
    [{ pfx := "ui", uri := "/WEB-INF/tags/ui" }] "A_jsp"
    { pfx := "ui", tname := "button", raw := "<ui:button" }
    "WEB-INF/tags/ui/button_tag"
    { graph := { nodes := ["A_jsp", "WEB-INF/tags/ui/button_tag"], edges := [] },
      deps := [] }
    (by decide) (by decide)).2

/-! ## C8: determinism and resolver purity -/

/-- C8: the core pipeline is a pure function of its inputs — byte-identical
input facts give identical graphs, dependency logs, coupling metrics, metrics and
cluster assignments — and the include resolution performed inside the graph
builder factors through `resolveIncludeOutcome`, a function of the
`(registry, origin, reference)` triple alone, so resolving a given
(reference, registry snapshot) pair yields the identical result regardless of the
build state accumulated by earlier calls. -/
theorem C8_pipeline_deterministic_and_resolver_pure :
    (∀ i1 i2 : List FileInput, i1 = i2 → runCore i1 = runCore i2) ∧
    (∀ (reg : Registry) (fid : String) (inc : IncludeRec) (st : BuildState),
      processInclude reg fid inc st =
        applyIncludeOutcome fid inc (resolveIncludeOutcome reg fid inc) st) :=
  ⟨fun _ _ h => congrArg runCore h, processInclude_eq_applyOutcome⟩

/-- C8 witness: the pipeline run twice on one concrete input list gives equal
outputs, and one concrete include resolution factors through the pure resolver. -/
theorem C8_witness :
    runCore [⟨"a.jsp", 1, "t", {}⟩] = runCore [⟨"a.jsp", 1, "t", {}⟩] ∧
    processInclude [("a_jsp", { path := "a.jsp", size := 1, lastModified := "t" })]
      "a_jsp" { itype := .directive, target := "a.jsp" }
      { graph := { nodes := ["a_jsp"], edges := [] }, deps := [] } =
      applyIncludeOutcome "a_jsp" { itype := .directive, target := "a.jsp" }
        (resolveIncludeOutcome
          [("a_jsp", { path := "a.jsp", size := 1, lastModified := "t" })]
          "a_jsp" { itype := .directive, target := "a.jsp" })
        { graph := { nodes := ["a_jsp"], edges := [] }, deps := [] } :=
  ⟨C8_pipeline_deterministic_and_resolver_pure.1 _ _ rfl,
    C8_pipeline_deterministic_and_resolver_pure.2 _ _ _ _⟩

/-! ## Cycle theory for C7

`hasCyclicFlag` models the source's
`any(node in cycle for cycle in nx.simple_cycles(G))` by bounded reachability;
the following lemmas prove it equivalent to literal membership in a simple cycle
(`SimpleCycle`), which is what the spec asserts. -/

theorem eq_dropLast_append_of_getLastEq {α : Type} {l : List α} {x : α}
    (h : l.getLast? = some x) : l = l.dropLast ++ [x] := by
  have hne : l ≠ [] := by
    rintro rfl
    simp at h
  have h2 := List.dropLast_append_getLast hne
  rw [List.getLast?_eq_getLast l hne, Option.some_inj] at h
  rw [h] at h2
  exact h2.symm

theorem getLast?_append_cons {α : Type} (s : List α) (c : α) (t : List α) :
    (s ++ c :: t).getLast? = (c :: t).getLast? := by
  induction s with
  | nil => rfl
  | cons a s ih =>
    rw [List.cons_append]
    cases hs : s ++ c :: t with
    | nil => exact absurd hs (by simp)
    | cons y ys =>
      rw [hs] at ih
      rw [List.getLast?_cons_cons]
      exact ih

/-- Walk shortening: every chain from `a` ending at `b` contains a
repetition-free chain from `a` ending at `b`. -/
theorem chain_dedup {α : Type} (R : α → α → Prop) :
    ∀ (n : Nat) (l : List α) (a b : α), l.length ≤ n →
      List.Chain R a l → (a :: l).getLast? = some b →
      ∃ l', List.Chain R a l' ∧ (a :: l').getLast? = some b ∧
        (a :: l').Nodup ∧ l'.length ≤ l.length := by
  intro n
  induction n with
  | zero =>
    intro l a b hlen hch hlast
    have hl : l = [] := List.eq_nil_of_length_eq_zero (Nat.le_zero.mp hlen)
    subst hl
    exact ⟨[], List.Chain.nil, hlast, List.nodup_singleton a, le_refl 0⟩
  | succ n ih =>
    intro l a b hlen hch hlast
    cases l with
    | nil => exact ⟨[], List.Chain.nil, hlast, List.nodup_singleton a, by simp⟩
    | cons c t =>
      have hRac : R a c := (List.chain_cons.mp hch).1
      have hcht : List.Chain R c t := (List.chain_cons.mp hch).2
      have hlast2 : (c :: t).getLast? = some b := by
        rw [List.getLast?_cons_cons] at hlast
        exact hlast
      have htlen : t.length ≤ n := by
        simp only [List.length_cons] at hlen
        omega
      obtain ⟨t', hch', hlast', hnd', hlen'⟩ := ih t c b htlen hcht hlast2
      by_cases ha : a ∈ c :: t'
      · obtain ⟨s, u, hsu⟩ := List.append_of_mem ha
        have hchAll : List.Chain R a (s ++ a :: u) := by
          rw [← hsu]
          exact List.chain_cons.mpr ⟨hRac, hch'⟩
        have hchu : List.Chain R a u := (List.chain_split.mp hchAll).2
        have hulen : u.length ≤ n := by
          have : (c :: t').length = s.length + u.length + 1 := by
            rw [hsu]; simp; omega
          simp only [List.length_cons] at this
          omega
        have hlastu : (a :: u).getLast? = some b := by
          have : (c :: t').getLast? = (a :: u).getLast? := by
            rw [hsu]; exact getLast?_append_cons s a u
          rw [← this]
          exact hlast'
        obtain ⟨w, hw1, hw2, hw3, hw4⟩ := ih u a b hulen hchu hlastu
        refine ⟨w, hw1, hw2, hw3, ?_⟩
        have : u.length ≤ t.length := by
          have h1 : (c :: t').length = s.length + u.length + 1 := by
            rw [hsu]; simp; omega
          simp only [List.length_cons] at h1
          omega
        simp only [List.length_cons]
        omega
      · refine ⟨c :: t', List.chain_cons.mpr ⟨hRac, hch'⟩, ?_, ?_, ?_⟩
        · rw [List.getLast?_cons_cons]
          exact hlast'
        · exact List.nodup_cons.mpr ⟨ha, hnd'⟩
        · simp only [List.length_cons]
          omega

/-- Every element of a chain's tail is the second coordinate of an edge of the
underlying relation, instantiated to the graph's edge list. -/
theorem chain_tail_subset_snd (g : DepGraph) :
    ∀ (l : List String) (a : String),
      List.Chain (fun x y => (x, y) ∈ g.edges) a l →
      ∀ y ∈ l, y ∈ g.edges.map (fun e => e.2) := by
  intro l
  induction l with
  | nil => intro a _ y hy; simp at hy
  | cons c t ih =>
    intro a hch y hy
    rcases List.mem_cons.1 hy with h | h
    · subst h
      exact List.mem_map.2 ⟨(a, y), (List.chain_cons.mp hch).1, rfl⟩
    · exact ih c (List.chain_cons.mp hch).2 y h

/-- A repetition-free nonempty-step walk has at most `2 · |edges|` vertices. -/
theorem nodup_walk_length_le (g : DepGraph) (a : String) (l : List String)
    (hne : l ≠ []) (hch : List.Chain (fun x y => (x, y) ∈ g.edges) a l)
    (hnd : (a :: l).Nodup) : (a :: l).length ≤ 2 * g.edges.length := by
  have hsub : (a :: l) ⊆ g.edges.map (fun e => e.1) ++ g.edges.map (fun e => e.2) := by
    intro y hy
    rcases List.mem_cons.1 hy with h | h
    · subst h
      cases l with
      | nil => exact absurd rfl hne
      | cons c t =>
        refine List.mem_append.2 (Or.inl ?_)
        exact List.mem_map.2 ⟨(y, c), (List.chain_cons.mp hch).1, rfl⟩
    · exact List.mem_append.2 (Or.inr (chain_tail_subset_snd g l a hch y h))
  have := (List.subperm_of_subset hnd hsub).length_le
  simpa [two_mul] using this

theorem mem_successors_iff (g : DepGraph) (n m : String) :
    m ∈ successors g n ↔ (n, m) ∈ g.edges := by
  unfold successors
  constructor
  · intro h
    obtain ⟨e, he, hm⟩ := List.mem_map.1 h
    obtain ⟨hmem, hfst⟩ := List.mem_filter.1 he
    have h1 : e.1 = n := by simpa using hfst
    have heq : (n, m) = e := by
      cases e
      simp only [Prod.mk.injEq]
      exact ⟨h1.symm, hm.symm⟩
    rw [heq]
    exact hmem
  · intro h
    exact List.mem_map.2 ⟨(n, m), List.mem_filter.2 ⟨h, by simp⟩, rfl⟩

/-- Soundness of bounded reachability: a `true` answer exhibits a chain. -/
theorem reachableWithin_sound (g : DepGraph) :
    ∀ (f : Nat) (a b : String), reachableWithin g f a b = true →
      ∃ l, List.Chain (fun x y => (x, y) ∈ g.edges) a l ∧
        (a :: l).getLast? = some b := by
  intro f
  induction f with
  | zero =>
    intro a b h
    have : a = b := by simpa [reachableWithin] using h
    subst this
    exact ⟨[], List.Chain.nil, rfl⟩
  | succ f ih =>
    intro a b h
    simp only [reachableWithin, Bool.or_eq_true, List.any_eq_true,
      decide_eq_true_eq] at h
    rcases h with h | ⟨m, hm, hr⟩
    · subst h
      exact ⟨[], List.Chain.nil, rfl⟩
    · obtain ⟨l, hch, hlast⟩ := ih m b hr
      refine ⟨m :: l, List.chain_cons.mpr ⟨(mem_successors_iff g a m).1 hm, hch⟩, ?_⟩
      rw [List.getLast?_cons_cons]
      exact hlast

/-- Completeness of bounded reachability: a chain within the fuel bound is found. -/
theorem reachableWithin_complete (g : DepGraph) :
    ∀ (l : List String) (a b : String) (f : Nat), l.length ≤ f →
      List.Chain (fun x y => (x, y) ∈ g.edges) a l →
      (a :: l).getLast? = some b → reachableWithin g f a b = true := by
  intro l
  induction l with
  | nil =>
    intro a b f _ _ hlast
    have : a = b := by simpa using hlast
    subst this
    cases f with
    | zero => simp [reachableWithin]
    | succ f => simp [reachableWithin]
  | cons c t ih =>
    intro a b f hlen hch hlast
    cases f with
    | zero => simp at hlen
    | succ f =>
      have hlast2 : (c :: t).getLast? = some b := by
        rw [List.getLast?_cons_cons] at hlast
        exact hlast
      have hr : reachableWithin g f c b = true := by
        refine ih c b f ?_ (List.chain_cons.mp hch).2 hlast2
        simp only [List.length_cons] at hlen
        omega
      simp only [reachableWithin, Bool.or_eq_true, List.any_eq_true,
        decide_eq_true_eq]
      refine Or.inr ⟨c, (mem_successors_iff g a c).2 (List.chain_cons.mp hch).1, hr⟩

theorem reachableWithin_refl (g : DepGraph) (f : Nat) (a : String) :
    reachableWithin g f a a = true := by
  cases f with
  | zero => simp [reachableWithin]
  | succ f => simp [reachableWithin]

/-- A node lying on a simple cycle is flagged by the bounded-reachability test. -/
theorem cycleFlag_of_simpleCycle (g : DepGraph) (n : String) (c : List String)
    (hc : SimpleCycle g c) (hn : n ∈ c) : hasCyclicFlag g n = true := by
  cases c with
  | nil => exact absurd hc (by simp [SimpleCycle])
  | cons x t =>
    obtain ⟨hch, _⟩ := hc
    have hrot : ∃ t', List.Chain (fun p q => (p, q) ∈ g.edges) n (t' ++ [n]) := by
      rcases List.mem_cons.1 hn with h | h
      · subst h
        exact ⟨t, hch⟩
      · obtain ⟨s, u, hsu⟩ := List.append_of_mem h
        have hre : t ++ [x] = s ++ n :: (u ++ [x]) := by
          rw [hsu]
          simp
        rw [hre] at hch
        have hsplit := List.chain_split.mp hch
        refine ⟨u ++ x :: s, ?_⟩
        have : (u ++ x :: s) ++ [n] = u ++ x :: (s ++ [n]) := by simp
        rw [this]
        exact List.chain_split.mpr ⟨hsplit.2, hsplit.1⟩
    obtain ⟨t', hch'⟩ := hrot
    cases t' with
    | nil =>
      have hself : (n, n) ∈ g.edges := (List.chain_cons.mp hch').1
      unfold hasCyclicFlag
      refine List.any_eq_true.2 ⟨n, (mem_successors_iff g n n).2 hself, ?_⟩
      exact reachableWithin_refl g _ n
    | cons m t'' =>
      have hnm : (n, m) ∈ g.edges := (List.chain_cons.mp hch').1
      have hchm : List.Chain (fun p q => (p, q) ∈ g.edges) m (t'' ++ [n]) :=
        (List.chain_cons.mp hch').2
      have hlastm : (m :: (t'' ++ [n])).getLast? = some n := by
        have h : m :: (t'' ++ [n]) = (m :: t'') ++ [n] := by simp
        rw [h, List.getLast?_concat]
      obtain ⟨w, hw1, hw2, hw3, _⟩ :=
        chain_dedup (fun p q => (p, q) ∈ g.edges) (t'' ++ [n]).length
          (t'' ++ [n]) m n (le_refl _) hchm hlastm
      cases hwe : w with
      | nil =>
        have : m = n := by
          rw [hwe] at hw2
          simpa using hw2
        subst this
        unfold hasCyclicFlag
        refine List.any_eq_true.2 ⟨m, (mem_successors_iff g m m).2 hnm, ?_⟩
        exact reachableWithin_refl g _ m
      | cons w0 wt =>
        have hwne : w ≠ [] := by rw [hwe]; simp
        have hbound : (m :: w).length ≤ 2 * g.edges.length :=
          nodup_walk_length_le g m w hwne hw1 hw3
        have hwlen : w.length ≤ 2 * g.edges.length := by
          simp only [List.length_cons] at hbound
          omega
        unfold hasCyclicFlag
        refine List.any_eq_true.2 ⟨m, (mem_successors_iff g n m).2 hnm, ?_⟩
        exact reachableWithin_complete g w m n (2 * g.edges.length) hwlen hw1 hw2

/-- A node flagged by the bounded-reachability test lies on a simple cycle. -/
theorem simpleCycle_of_cycleFlag (g : DepGraph) (n : String)
    (h : hasCyclicFlag g n = true) : ∃ c, SimpleCycle g c ∧ n ∈ c := by
  unfold hasCyclicFlag at h
  obtain ⟨m, hm, hr⟩ := List.any_eq_true.1 h
  have hnm : (n, m) ∈ g.edges := (mem_successors_iff g n m).1 hm
  obtain ⟨l, hch, hlast⟩ := reachableWithin_sound g _ m n hr
  obtain ⟨w, hw1, hw2, hw3, _⟩ :=
    chain_dedup (fun p q => (p, q) ∈ g.edges) l.length l m n (le_refl _) hch hlast
  cases hwe : w with
  | nil =>
    have hmn : m = n := by
      rw [hwe] at hw2
      simpa using hw2
    subst hmn
    refine ⟨[m], ?_, List.mem_singleton.2 rfl⟩
    exact ⟨List.chain_cons.mpr ⟨hnm, List.Chain.nil⟩, List.nodup_singleton m⟩
  | cons w0 wt =>
    have hwne : w ≠ [] := by rw [hwe]; simp
    have hlw : w.getLast? = some n := by
      rw [hwe] at hw2
      rw [hwe]
      rw [List.getLast?_cons_cons] at hw2
      exact hw2
    have hwsplit : w = w.dropLast ++ [n] := eq_dropLast_append_of_getLastEq hlw
    refine ⟨n :: m :: w.dropLast, ⟨?_, ?_⟩, List.mem_cons.2 (Or.inl rfl)⟩
    · show List.Chain (fun p q => (p, q) ∈ g.edges) n ((m :: w.dropLast) ++ [n])
      have : (m :: w.dropLast) ++ [n] = m :: (w.dropLast ++ [n]) := by simp
      rw [this, ← hwsplit]
      exact List.chain_cons.mpr ⟨hnm, hw1⟩
    · have hperm : ((m :: w.dropLast) ++ [n]).Perm (n :: m :: w.dropLast) :=
        List.perm_append_singleton n (m :: w.dropLast)
      refine hperm.nodup ?_
      have : (m :: w.dropLast) ++ [n] = m :: (w.dropLast ++ [n]) := by simp
      rw [this, ← hwsplit]
      exact hw3

/-- C7: a node's cycle-membership flag is true iff the node lies on at least one
simple cycle of the collapsed dependency graph; in particular, for three files
with includes forming A→B, B→C and C→A, the graph builder produces exactly those
three edges and all three coupling records carry a true cycle flag. -/
theorem C7_cycle_flag_iff_simple_cycle_membership :
    (∀ (g : DepGraph) (n : String),
      hasCyclicFlag g n = true ↔ ∃ c, SimpleCycle g c ∧ n ∈ c) ∧
    (buildDependencyGraph
      [("a_jsp", { path := "a.jsp", size := 1, lastModified := "t" }),
       ("b_jsp", { path := "b.jsp", size := 1, lastModified := "t" }),
       ("c_jsp", { path := "c.jsp", size := 1, lastModified := "t" })]
      [("a_jsp", [{ itype := .directive, target := "b.jsp" }]),
       ("b_jsp", [{ itype := .directive, target := "c.jsp" }]),
       ("c_jsp", [{ itype := .directive, target := "a.jsp" }])]
      [] [] []).graph.edges =
      [("a_jsp", "b_jsp"), ("b_jsp", "c_jsp"), ("c_jsp", "a_jsp")] ∧
    ((["a_jsp", "b_jsp", "c_jsp"].all (fun n =>
      (couplingFor
        (buildDependencyGraph
          [("a_jsp", { path := "a.jsp", size := 1, lastModified := "t" }),
           ("b_jsp", { path := "b.jsp", size := 1, lastModified := "t" }),
           ("c_jsp", { path := "c.jsp", size := 1, lastModified := "t" })]
          [("a_jsp", [{ itype := .directive, target := "b.jsp" }]),
           ("b_jsp", [{ itype := .directive, target := "c.jsp" }]),
           ("c_jsp", [{ itype := .directive, target := "a.jsp" }])]
          [] [] []).graph n).cyclic)) = true) := by
  refine ⟨?_, by decide, by decide⟩
  intro g n
  constructor
  · exact simpleCycle_of_cycleFlag g n
  · rintro ⟨c, hc, hn⟩
    exact cycleFlag_of_simpleCycle g n c hc hn

/-! ## Character-class and list-scanning facts for the extractor proofs -/

theorem charToNat_ofNat_of_lt (n : Nat) (h : n < 55296) : (Char.ofNat n).toNat = n := by
  unfold Char.ofNat
  rw [dif_pos (Or.inl h)]
  unfold Char.ofNatAux Char.toNat
  simp [UInt32.toNat]

theorem toLower_eq_lt (c : Char) (h : c.toLower = '<') : c = '<' := by
  simp only [Char.toLower] at h
  split at h
  · exfalso
    have h2 := congrArg Char.toNat h
    rw [charToNat_ofNat_of_lt (c.toNat + 32) (by omega)] at h2
    have h3 : ('<').toNat = 60 := by decide
    omega
  · exact h

theorem isPySpace_cases (c : Char) (h : isPySpace c = true) :
    c = ' ' ∨ c = '\t' ∨ c = '\n' ∨ c = '\r' ∨ c = '\x0b' ∨ c = '\x0c' := by
  have h2 : ((((c = ' ' ∨ c = '\t') ∨ c = '\n') ∨ c = '\r') ∨ c = '\x0b') ∨
      c = '\x0c' := by
    simpa [isPySpace, Bool.or_eq_true, decide_eq_true_eq] using h
  tauto

theorem space_not_word (c : Char) (h : isPySpace c = true) : isWordChar c = false := by
  rcases isPySpace_cases c h with h | h | h | h | h | h <;> subst h <;> decide

theorem space_not_pct_gt (c : Char) (h : isPySpace c = true) :
    (decide ¬ (c = '%' ∨ c = '>')) = true := by
  rcases isPySpace_cases c h with h | h | h | h | h | h <;> subst h <;> decide

theorem space_not_lt (c : Char) (h : isPySpace c = true) : c ≠ '<' := by
  rcases isPySpace_cases c h with h | h | h | h | h | h <;> subst h <;> decide

theorem quote_not_space (q : Char) (hq : q = '"' ∨ q = '\'') : isPySpace q = false := by
  rcases hq with h | h <;> subst h <;> decide

theorem quote_not_pct_gt (q : Char) (hq : q = '"' ∨ q = '\'') :
    (decide ¬ (q = '%' ∨ q = '>')) = true := by
  rcases hq with h | h <;> subst h <;> decide

theorem quote_ne_lt (q : Char) (hq : q = '"' ∨ q = '\'') : q ≠ '<' := by
  rcases hq with h | h <;> subst h <;> decide

theorem expectLit_append (lit rest : List Char) :
    expectLit lit (lit ++ rest) = some rest := by
  have hp : lit.isPrefixOf (lit ++ rest) = true := by
    induction lit with
    | nil => simp [List.isPrefixOf]
    | cons c t ih => simp [List.isPrefixOf, ih]
  unfold expectLit
  rw [if_pos hp, List.drop_left]

theorem takeWhile_append_of_all {p : Char → Bool} (u v : List Char)
    (h : ∀ x ∈ u, p x = true) : (u ++ v).takeWhile p = u ++ v.takeWhile p := by
  induction u with
  | nil => rfl
  | cons c t ih =>
    rw [List.cons_append, List.takeWhile_cons, if_pos (h c (by simp))]
    rw [ih (fun x hx => h x (by simp [hx])), List.cons_append]

theorem takeWhile_append_stop {p : Char → Bool} (u : List Char) (c : Char)
    (v : List Char) (h : ∀ x ∈ u, p x = true) (hc : p c = false) :
    (u ++ c :: v).takeWhile p = u := by
  rw [takeWhile_append_of_all u _ h, List.takeWhile_cons, if_neg (by simp [hc])]
  simp

theorem dropWhile_append_stop {p : Char → Bool} (u : List Char) (c : Char)
    (v : List Char) (h : ∀ x ∈ u, p x = true) (hc : p c = false) :
    (u ++ c :: v).dropWhile p = c :: v := by
  induction u with
  | nil => rw [List.nil_append, List.dropWhile_cons, if_neg (by simp [hc])]
  | cons a t ih =>
    rw [List.cons_append, List.dropWhile_cons, if_pos (h a (by simp))]
    exact ih (fun x hx => h x (by simp [hx]))

theorem drop_left_append (u v : List Char) : (u ++ v).drop u.length = v :=
  List.drop_left u v

theorem expectLit_open (X : List Char) :
    expectLit "<%@".data ('<' :: '%' :: '@' :: X) = some X := by
  simp [expectLit, List.isPrefixOf]

theorem expectLit_include (X : List Char) :
    expectLit "include".data
      ('i' :: 'n' :: 'c' :: 'l' :: 'u' :: 'd' :: 'e' :: X) = some X := by
  simp [expectLit, List.isPrefixOf]

theorem ciExpectLit_include (X : List Char) :
    ciExpectLit "include".data
      ('i' :: 'n' :: 'c' :: 'l' :: 'u' :: 'd' :: 'e' :: X) = some X := by rfl

theorem expectLit_file (X : List Char) :
    expectLit "file".data ('f' :: 'i' :: 'l' :: 'e' :: X) = some X := by
  simp [expectLit, List.isPrefixOf]

theorem expectLit_assign (X : List Char) :
    expectLit "=".data ('=' :: X) = some X := by
  simp [expectLit, List.isPrefixOf]

theorem expectLit_close (X : List Char) :
    expectLit "%>".data ('%' :: '>' :: X) = some X := by
  simp [expectLit, List.isPrefixOf]

theorem fChars_not_quote (F : List Char)
    (hFc : ∀ c ∈ F, ¬ (c = '"' ∨ c = '\'' ∨ c = '%' ∨ c = '>' ∨ c = '<')) :
    ∀ x ∈ F, (decide ¬ (x = '"' ∨ x = '\'')) = true := by
  intro x hx
  have := hFc x hx
  simp only [decide_eq_true_eq]
  tauto

theorem quote_not_capture_stop (q : Char) (hq : q = '"' ∨ q = '\'') :
    (decide ¬ (q = '"' ∨ q = '\'')) = false := by
  rcases hq with h | h <;> subst h <;> decide

theorem eChars_not_pct_gt (e : List Char)
    (hec : ∀ c ∈ e, ¬ (c = '%' ∨ c = '>' ∨ c = '<' ∨ c = '=')) :
    ∀ x ∈ e, (decide ¬ (x = '%' ∨ x = '>')) = true := by
  intro x hx
  have := hec x hx
  simp only [decide_eq_true_eq]
  tauto

/-- The line-320 regex matches the general directive-include text and captures
exactly the value `F`, consuming everything up to `%>`. -/
theorem matchDirective1_shape (w1 w2 w3 w4 : List Char) (q : Char)
    (F e suf : List Char) (hs : DirectiveShape w1 w2 w3 w4 q F e) :
    matchDirective1 (directiveIncludeText w1 w2 w3 w4 q F e suf) = some (F, suf) := by
  obtain ⟨hw1, hw2, hw2ne, hw3, hw4, hq, hFne, hFc, hec⟩ := hs
  obtain ⟨c2, w2t, rfl⟩ : ∃ c2 w2t, w2 = c2 :: w2t := by
    cases w2 with
    | nil => exact absurd rfl hw2ne
    | cons a t => exact ⟨a, t, rfl⟩
  unfold matchDirective1 directiveIncludeText
  rw [expectLit_open, Option.some_bind,
    dropWhile_append_stop w1 'i' _ hw1 (by decide),
    expectLit_include, Option.some_bind, List.cons_append]
  have hc2 : isPySpace c2 = true := hw2 c2 (by simp)
  simp only [headSatisfies, if_pos hc2, Option.some_bind]
  rw [← List.cons_append,
    dropWhile_append_stop (c2 :: w2t) 'f' _ hw2 (by decide),
    expectLit_file, Option.some_bind,
    dropWhile_append_stop w3 '=' _ hw3 (by decide),
    expectLit_assign, Option.some_bind,
    dropWhile_append_stop w4 q _ hw4 (quote_not_space q hq)]
  simp only [matchQuoted1, if_pos hq]
  rw [takeWhile_append_stop F q _ (fChars_not_quote F hFc) (quote_not_capture_stop q hq),
    if_neg hFne, drop_left_append]
  simp only [matchTail1]
  rw [dropWhile_append_stop e '%' _ (eChars_not_pct_gt e hec) (by decide),
    expectLit_close]
  rfl

theorem fChars_not_pct_gt (F : List Char)
    (hFc : ∀ c ∈ F, ¬ (c = '"' ∨ c = '\'' ∨ c = '%' ∨ c = '>' ∨ c = '<')) :
    ∀ x ∈ F, (decide ¬ (x = '%' ∨ x = '>')) = true := by
  intro x hx
  have := hFc x hx
  simp only [decide_eq_true_eq]
  tauto

theorem fChars_bnot_dquote (F : List Char)
    (hFc : ∀ c ∈ F, ¬ (c = '"' ∨ c = '\'' ∨ c = '%' ∨ c = '>' ∨ c = '<')) :
    ∀ x ∈ F, (!decide (x = '"')) = true := by
  intro x hx
  have := hFc x hx
  simp only [Bool.not_eq_true', decide_eq_false_iff_not]
  tauto

theorem fChars_bnot_squote (F : List Char)
    (hFc : ∀ c ∈ F, ¬ (c = '"' ∨ c = '\'' ∨ c = '%' ∨ c = '>' ∨ c = '<')) :
    ∀ x ∈ F, (!decide (x = '\'')) = true := by
  intro x hx
  have := hFc x hx
  simp only [Bool.not_eq_true', decide_eq_false_iff_not]
  tauto

theorem fChars_not_dquote (F : List Char)
    (hFc : ∀ c ∈ F, ¬ (c = '"' ∨ c = '\'' ∨ c = '%' ∨ c = '>' ∨ c = '<')) :
    ∀ x ∈ F, (decide (x ≠ '"')) = true := by
  intro x hx
  have := hFc x hx
  simp only [ne_eq, decide_eq_true_eq]
  tauto

theorem fChars_not_squote (F : List Char)
    (hFc : ∀ c ∈ F, ¬ (c = '"' ∨ c = '\'' ∨ c = '%' ∨ c = '>' ∨ c = '<')) :
    ∀ x ∈ F, (decide (x ≠ '\'')) = true := by
  intro x hx
  have := hFc x hx
  simp only [ne_eq, decide_eq_true_eq]
  tauto

/-- The middle of the directive text — everything the loose regex captures plus
the mandatory whitespace — contains no `%` or `>`. -/
theorem directiveMiddle_not_pct_gt (w2 w3 w4 : List Char) (q : Char)
    (F e : List Char)
    (hw2 : ∀ c ∈ w2, isPySpace c = true) (hw3 : ∀ c ∈ w3, isPySpace c = true)
    (hw4 : ∀ c ∈ w4, isPySpace c = true) (hq : q = '"' ∨ q = '\'')
    (hFc : ∀ c ∈ F, ¬ (c = '"' ∨ c = '\'' ∨ c = '%' ∨ c = '>' ∨ c = '<'))
    (hec : ∀ c ∈ e, ¬ (c = '%' ∨ c = '>' ∨ c = '<' ∨ c = '=')) :
    ∀ x ∈ w2 ++ ('f' :: 'i' :: 'l' :: 'e' ::
      (w3 ++ ('=' :: (w4 ++ (q :: (F ++ (q :: e))))))),
      (decide ¬ (x = '%' ∨ x = '>')) = true := by
  intro x hx
  simp only [List.mem_append, List.mem_cons] at hx
  rcases hx with hx | rfl | rfl | rfl | rfl | hx | rfl | hx | rfl | hx | rfl | hx
  · exact space_not_pct_gt x (hw2 x hx)
  · decide
  · decide
  · decide
  · decide
  · exact space_not_pct_gt x (hw3 x hx)
  · decide
  · exact space_not_pct_gt x (hw4 x hx)
  · exact quote_not_pct_gt _ hq
  · exact fChars_not_pct_gt F hFc x hx
  · exact quote_not_pct_gt _ hq
  · exact eChars_not_pct_gt e hec x hx

/-- The loose line-348 regex also matches the directive text, capturing the whole
attribute text between `include\s+` and `%>`. -/
theorem matchDirective2_shape (w1 w2 w3 w4 : List Char) (q : Char)
    (F e suf : List Char) (hs : DirectiveShape w1 w2 w3 w4 q F e) :
    matchDirective2 (directiveIncludeText w1 w2 w3 w4 q F e suf) =
      some ('f' :: 'i' :: 'l' :: 'e' ::
        (w3 ++ ('=' :: (w4 ++ (q :: (F ++ (q :: e)))))), suf) := by
  obtain ⟨hw1, hw2, hw2ne, hw3, hw4, hq, hFne, hFc, hec⟩ := hs
  obtain ⟨c2, w2t, rfl⟩ : ∃ c2 w2t, w2 = c2 :: w2t := by
    cases w2 with
    | nil => exact absurd rfl hw2ne
    | cons a t => exact ⟨a, t, rfl⟩
  unfold matchDirective2 directiveIncludeText
  rw [expectLit_open, Option.some_bind,
    dropWhile_append_stop w1 'i' _ hw1 (by decide),
    ciExpectLit_include, Option.some_bind]
  have hsplit : (c2 :: w2t) ++ ('f' :: 'i' :: 'l' :: 'e' ::
      (w3 ++ ('=' :: (w4 ++ (q :: (F ++ (q :: (e ++ ('%' :: '>' :: suf))))))))) =
      ((c2 :: w2t) ++ ('f' :: 'i' :: 'l' :: 'e' ::
        (w3 ++ ('=' :: (w4 ++ (q :: (F ++ (q :: e)))))))) ++ ('%' :: '>' :: suf) := by
    simp
  rw [hsplit]
  rw [takeWhile_append_stop _ '%' _
    (by
      intro x hx
      rcases List.mem_append.1 hx with hx | hx
      · exact space_not_pct_gt x (hw2 x hx)
      · exact directiveMiddle_not_pct_gt w2t w3 w4 q F e
          (fun c hc => hw2 c (by simp [hc])) hw3 hw4 hq hFc hec x
          (List.mem_append.2 (Or.inr hx)))
    (by decide)]
  have hcap : captureOf2 ((c2 :: w2t) ++ ('f' :: 'i' :: 'l' :: 'e' ::
      (w3 ++ ('=' :: (w4 ++ (q :: (F ++ (q :: e)))))))) =
      some ('f' :: 'i' :: 'l' :: 'e' ::
        (w3 ++ ('=' :: (w4 ++ (q :: (F ++ (q :: e))))))) := by
    unfold captureOf2
    rw [takeWhile_append_stop (c2 :: w2t) 'f' _ hw2 (by decide)]
    rw [if_neg (by simp)]
    rw [if_pos (by simp [List.length_append])]
    rw [show ((c2 :: w2t) : List Char).length =
      ((c2 :: w2t) : List Char).length from rfl, drop_left_append]
  rw [hcap, Option.some_bind, drop_left_append, expectLit_close]
  rfl

theorem capture_word_run (w3 R : List Char) (hw3 : ∀ c ∈ w3, isPySpace c = true) :
    ('f' :: 'i' :: 'l' :: 'e' :: (w3 ++ ('=' :: R))).takeWhile isWordChar =
      ['f', 'i', 'l', 'e'] := by
  have hrest : (w3 ++ ('=' :: R)).takeWhile isWordChar = [] := by
    cases w3 with
    | nil =>
      rw [List.nil_append, List.takeWhile_cons,
        if_neg (by simp [show isWordChar '=' = false from by decide])]
    | cons a t =>
      rw [List.cons_append, List.takeWhile_cons,
        if_neg (by simp [space_not_word a (hw3 a (by simp))])]
  simp [List.takeWhile_cons, hrest, show isWordChar 'f' = true from by decide,
    show isWordChar 'i' = true from by decide,
    show isWordChar 'l' = true from by decide,
    show isWordChar 'e' = true from by decide]

/-- On the captured attribute text, the attribute regex finds `file = qFq` and
returns key `file`, value `F` and remainder `e`. -/
theorem matchAttrAt_capture (w3 w4 : List Char) (q : Char) (F e : List Char)
    (hw3 : ∀ c ∈ w3, isPySpace c = true) (hw4 : ∀ c ∈ w4, isPySpace c = true)
    (hq : q = '"' ∨ q = '\'')
    (hFc : ∀ c ∈ F, ¬ (c = '"' ∨ c = '\'' ∨ c = '%' ∨ c = '>' ∨ c = '<')) :
    matchAttrAt ('f' :: 'i' :: 'l' :: 'e' ::
      (w3 ++ ('=' :: (w4 ++ (q :: (F ++ (q :: e))))))) =
      some ((['f', 'i', 'l', 'e'], F), e) := by
  unfold matchAttrAt
  rw [capture_word_run w3 _ hw3]
  rw [if_neg (by simp)]
  have hdrop : (('f' :: 'i' :: 'l' :: 'e' ::
      (w3 ++ ('=' :: (w4 ++ (q :: (F ++ (q :: e))))))).drop
        (['f', 'i', 'l', 'e'] : List Char).length) =
      w3 ++ ('=' :: (w4 ++ (q :: (F ++ (q :: e))))) := rfl
  rw [hdrop, dropWhile_append_stop w3 '=' _ hw3 (by decide)]
  simp only [if_pos rfl]
  rw [dropWhile_append_stop w4 q _ hw4 (quote_not_space q hq)]
  rcases hq with rfl | rfl
  · have h1 : List.takeWhile (fun x => !decide (x = '"')) (F ++ '"' :: e) = F :=
      takeWhile_append_stop F '"' _ (fChars_bnot_dquote F hFc) (by decide)
    have h2 : List.drop F.length (F ++ '"' :: e) = '"' :: e := drop_left_append F _
    simp [matchAttrValue, h1, h2]
  · have h1 : List.takeWhile (fun x => !decide (x = '\'')) (F ++ '\'' :: e) = F :=
      takeWhile_append_stop F '\'' _ (fChars_bnot_squote F hFc) (by decide)
    have h2 : List.drop F.length (F ++ '\'' :: e) = '\'' :: e := drop_left_append F _
    simp [matchAttrValue, h1, h2,
      eq_false (show ¬ (('\'' : Char) = '"') from by decide)]

/-- A text without `=` admits no attribute match at its head. -/
theorem matchAttrAt_none_of_no_assign (l : List Char)
    (h : ∀ c ∈ l, c ≠ '=') : matchAttrAt l = none := by
  unfold matchAttrAt
  split
  · rfl
  · cases hseq : ((l.drop (l.takeWhile isWordChar).length).dropWhile isPySpace) with
    | nil => rfl
    | cons c t3 =>
      have hcl : c ∈ l := by
        have h1 : (l.drop (l.takeWhile isWordChar).length).dropWhile isPySpace <:+
            l.drop (l.takeWhile isWordChar).length := List.dropWhile_suffix _
        have h2 : l.drop (l.takeWhile isWordChar).length <:+ l := List.drop_suffix _ _
        have h3 := h1.trans h2
        rw [hseq] at h3
        exact h3.subset (by simp)
      simp only [if_neg (h c hcl)]

/-- Attribute scanning of an `=`-free text yields nothing. -/
theorem parseAttrsAux_no_assign :
    ∀ (f : Nat) (t : List Char), (∀ c ∈ t, c ≠ '=') → parseAttrsAux f t = [] := by
  intro f
  induction f with
  | zero => intro t _; rfl
  | succ f ih =>
    intro t ht
    cases t with
    | nil => rfl
    | cons c rest =>
      unfold parseAttrsAux
      rw [matchAttrAt_none_of_no_assign (c :: rest) ht]
      exact ih rest (fun x hx => ht x (by simp [hx]))

theorem length_ge_of_suffix_parts (w3 w4 F e : List Char) (q : Char) :
    e.length ≤ ('f' :: 'i' :: 'l' :: 'e' ::
      (w3 ++ ('=' :: (w4 ++ (q :: (F ++ (q :: e))))))).length - 1 := by
  simp [List.length_append]
  omega

/-- `_parse_attributes` on the captured text yields exactly the `file` pair. -/
theorem parseAttrs_capture (w3 w4 : List Char) (q : Char) (F e : List Char)
    (hw3 : ∀ c ∈ w3, isPySpace c = true) (hw4 : ∀ c ∈ w4, isPySpace c = true)
    (hq : q = '"' ∨ q = '\'')
    (hFc : ∀ c ∈ F, ¬ (c = '"' ∨ c = '\'' ∨ c = '%' ∨ c = '>' ∨ c = '<'))
    (hec : ∀ c ∈ e, ¬ (c = '%' ∨ c = '>' ∨ c = '<' ∨ c = '=')) :
    parseAttrs ('f' :: 'i' :: 'l' :: 'e' ::
      (w3 ++ ('=' :: (w4 ++ (q :: (F ++ (q :: e))))))) =
      [(['f', 'i', 'l', 'e'], F)] := by
  unfold parseAttrs
  cases hlen : ('f' :: 'i' :: 'l' :: 'e' ::
      (w3 ++ ('=' :: (w4 ++ (q :: (F ++ (q :: e))))))).length with
  | zero => simp at hlen
  | succ n =>
    unfold parseAttrsAux
    rw [matchAttrAt_capture w3 w4 q F e hw3 hw4 hq hFc]
    show (['f', 'i', 'l', 'e'], F) :: parseAttrsAux n e = [(['f', 'i', 'l', 'e'], F)]
    rw [parseAttrsAux_no_assign n e
      (fun c hc => by
        have := hec c hc
        tauto)]

/-- `attrs.get('file') or attrs.get('page')` on the single `file` pair. -/
theorem pickFileOrPage_single (F : List Char) (hFne : F ≠ []) :
    pickFileOrPage [(['f', 'i', 'l', 'e'], F)] = some F := by
  unfold pickFileOrPage attrLookup
  have hflt : List.filter (fun p => decide (p.1 = "file".data))
      [((['f', 'i', 'l', 'e'] : List Char), F)] = [(['f', 'i', 'l', 'e'], F)] := by
    rw [List.filter_cons,
      if_pos (by
        show decide ((['f', 'i', 'l', 'e'] : List Char) = "file".data) = true
        decide),
      List.filter_nil]
  rw [hflt]
  simp [hFne]

/-! ## Stripping leaves the directive content unchanged -/

theorem lt_align (a : List Char) :
    ∀ (b u v : List Char), '<' ∉ b → '<' ∉ v →
      a ++ '<' :: u = b ++ '<' :: v → u = v := by
  induction a with
  | nil =>
    intro b u v hb hv h
    cases b with
    | nil => simpa using h
    | cons x b2 =>
      simp only [List.nil_append, List.cons_append, List.cons.injEq] at h
      exact absurd (show ('<' : Char) ∈ x :: b2 by
        rw [h.1]; exact List.mem_cons_self x b2) hb
  | cons y a2 ih =>
    intro b u v hb hv h
    cases b with
    | nil =>
      simp only [List.cons_append, List.nil_append, List.cons.injEq] at h
      exact absurd (show ('<' : Char) ∈ v by
        rw [← h.2]
        exact List.mem_append.2 (Or.inr (List.mem_cons_self _ _))) hv
    | cons x b2 =>
      simp only [List.cons_append, List.cons.injEq] at h
      exact ih b2 u v (fun hm => hb (List.mem_cons_of_mem x hm)) hv h.2

theorem unique_lt_suffix (pre B : List Char) (hpre : '<' ∉ pre) (hB : '<' ∉ B)
    (t0 u : List Char) (h : u ++ '<' :: t0 = pre ++ '<' :: B) : t0 = B :=
  lt_align u pre t0 B hpre hB h

theorem opener_isPrefixOf_false (opn : List Char) (orest : List Char)
    (hopn : opn = '<' :: orest) (pre B : List Char) (hpre : '<' ∉ pre)
    (hB : '<' ∉ B) (hdir : opn.isPrefixOf ('<' :: B) = false) :
    ∀ t, t <:+ (pre ++ '<' :: B) → opn.isPrefixOf t = false := by
  intro t ht
  cases t with
  | nil => rw [hopn]; rfl
  | cons c t0 =>
    by_cases hc : c = '<'
    · subst hc
      obtain ⟨u, hu⟩ := ht
      have : t0 = B := unique_lt_suffix pre B hpre hB t0 u hu
      subst this
      exact hdir
    · rw [hopn]
      simp only [List.isPrefixOf, Bool.and_eq_true, beq_iff_eq]
      simp only [Bool.and_eq_false_iff]
      left
      simpa [beq_eq_false_iff_ne] using fun h => hc h.symm

theorem removeDelimitedAux_id (opn close : List Char) :
    ∀ (f : Nat) (l : List Char), l.length ≤ f →
      (∀ t, t <:+ l → opn.isPrefixOf t = false) →
      removeDelimitedAux opn close f l = l := by
  intro f
  induction f with
  | zero => intro l _ _; rfl
  | succ f ih =>
    intro l hl hno
    cases l with
    | nil => rfl
    | cons c rest =>
      unfold removeDelimitedAux
      rw [hno (c :: rest) (List.suffix_refl _)]
      simp only [Bool.false_eq_true, if_false]
      rw [ih rest (by simp at hl; omega)
        (fun t ht => hno t (ht.trans (List.suffix_cons c rest)))]

theorem removeDelimited_id (opn close l : List Char)
    (hno : ∀ t, t <:+ l → opn.isPrefixOf t = false) :
    removeDelimited opn close l = l :=
  removeDelimitedAux_id opn close l.length l (le_refl _) hno

theorem matchScriptOpen_none_head (c : Char) (hc : c ≠ '<') (t : List Char) :
    matchScriptOpen (c :: t) = none := by
  unfold matchScriptOpen ciExpectLit
  rw [if_neg]
  intro h
  rw [show ("<script".data : List Char) =
      '<' :: 's' :: 'c' :: 'r' :: 'i' :: 'p' :: 't' :: [] from by decide] at h
  simp only [ciIsPrefixOf, Bool.and_eq_true, decide_eq_true_eq] at h
  have h4 : Char.toLower c = '<' := by
    rw [← h.1]; decide
  exact hc (toLower_eq_lt c h4)

theorem matchScriptOpen_none_directive (X : List Char) :
    matchScriptOpen ('<' :: '%' :: X) = none := by
  unfold matchScriptOpen ciExpectLit
  rw [if_neg]
  intro h
  rw [show ("<script".data : List Char) =
      '<' :: 's' :: 'c' :: 'r' :: 'i' :: 'p' :: 't' :: [] from by decide] at h
  simp only [ciIsPrefixOf, Bool.and_eq_true, decide_eq_true_eq] at h
  exact absurd h.2.1 (by decide)

theorem removeScriptAux_id :
    ∀ (f : Nat) (l : List Char), l.length ≤ f →
      (∀ t, t <:+ l → matchScriptOpen t = none) →
      removeScriptAux f l = l := by
  intro f
  induction f with
  | zero => intro l _ _; rfl
  | succ f ih =>
    intro l hl hno
    cases l with
    | nil => rfl
    | cons c rest =>
      unfold removeScriptAux
      rw [hno (c :: rest) (List.suffix_refl _)]
      rw [ih rest (by simp at hl; omega)
        (fun t ht => hno t (ht.trans (List.suffix_cons c rest)))]

theorem dirTail_ne_lt (w1 w2 w3 w4 : List Char) (q : Char) (F e suf : List Char)
    (hs : DirectiveShape w1 w2 w3 w4 q F e) (hsuf : '<' ∉ suf) :
    ∀ x ∈ ('%' :: '@' ::
      (w1 ++ ('i' :: 'n' :: 'c' :: 'l' :: 'u' :: 'd' :: 'e' ::
        (w2 ++ ('f' :: 'i' :: 'l' :: 'e' ::
          (w3 ++ ('=' ::
            (w4 ++ (q :: (F ++ (q :: (e ++ ('%' :: '>' :: suf))))))))))))),
      x ≠ '<' := by
  obtain ⟨hw1, hw2, _, hw3, hw4, hq, _, hFc, hec⟩ := hs
  intro x hx
  simp only [List.mem_cons, List.mem_append] at hx
  rcases hx with rfl | rfl | hx | rfl | rfl | rfl | rfl | rfl | rfl | rfl | hx |
    rfl | rfl | rfl | rfl | hx | rfl | hx | rfl | hx | rfl | hx | rfl | rfl | hx <;>
    first
      | decide
      | exact space_not_lt _ (hw1 _ hx)
      | exact space_not_lt _ (hw2 _ hx)
      | exact space_not_lt _ (hw3 _ hx)
      | exact space_not_lt _ (hw4 _ hx)
      | exact quote_ne_lt _ hq
      | exact fun hlt => hFc _ hx (Or.inr (Or.inr (Or.inr (Or.inr hlt))))
      | exact fun hlt => hec _ hx (Or.inr (Or.inr (Or.inl hlt)))
      | exact fun hlt => hsuf (hlt ▸ hx)

theorem jspCommentOpen_no_match (X : List Char) :
    ("<%--".data).isPrefixOf ('<' :: '%' :: '@' :: X) = false := by
  rw [show ("<%--".data : List Char) = ['<', '%', '-', '-'] from by decide]
  simp [List.isPrefixOf, show (('-' : Char) == '@') = false from by decide]

theorem htmlCommentOpen_no_match (X : List Char) :
    ("<!--".data).isPrefixOf ('<' :: '%' :: X) = false := by
  rw [show ("<!--".data : List Char) = ['<', '!', '-', '-'] from by decide]
  simp [List.isPrefixOf, show (('!' : Char) == '%') = false from by decide]

/-- On content whose only `<` starts a `<%@` directive, all three stripping
passes are the identity. -/
theorem stripCommentsAndScripts_id (pre X : List Char) (hpre : '<' ∉ pre)
    (hX : '<' ∉ ('%' :: '@' :: X)) :
    stripCommentsAndScripts (pre ++ '<' :: '%' :: '@' :: X) =
      pre ++ '<' :: '%' :: '@' :: X := by
  have hops1 : ∀ t, t <:+ (pre ++ '<' :: '%' :: '@' :: X) →
      ("<%--".data).isPrefixOf t = false :=
    opener_isPrefixOf_false _ "%--".data (by decide) pre _ hpre hX
      (jspCommentOpen_no_match X)
  have hops2 : ∀ t, t <:+ (pre ++ '<' :: '%' :: '@' :: X) →
      ("<!--".data).isPrefixOf t = false :=
    opener_isPrefixOf_false _ "!--".data (by decide) pre _ hpre hX
      (htmlCommentOpen_no_match ('@' :: X))
  have hscript : ∀ t, t <:+ (pre ++ '<' :: '%' :: '@' :: X) →
      matchScriptOpen t = none := by
    intro t ht
    cases t with
    | nil => decide
    | cons c t0 =>
      by_cases hc : c = '<'
      · subst hc
        obtain ⟨u, hu⟩ := ht
        have he : t0 = '%' :: '@' :: X := unique_lt_suffix pre _ hpre hX t0 u hu
        subst he
        exact matchScriptOpen_none_directive ('@' :: X)
      · exact matchScriptOpen_none_head c hc t0
  unfold stripCommentsAndScripts
  rw [removeDelimited_id _ _ _ hops1, removeDelimited_id _ _ _ hops2]
  exact removeScriptAux_id _ _ (le_refl _) hscript

/-! ## The two scans on content of the form `pre ++ directive ++ suf` -/

theorem expectLit_open_none (c : Char) (hc : c ≠ '<') (t : List Char) :
    expectLit "<%@".data (c :: t) = none := by
  unfold expectLit
  rw [if_neg]
  rw [show ("<%@".data : List Char) = ['<', '%', '@'] from by decide]
  simp only [List.isPrefixOf, Bool.and_eq_true, beq_iff_eq]
  intro h
  exact hc h.1.symm

theorem matchDirective1_none_head (c : Char) (hc : c ≠ '<') (t : List Char) :
    matchDirective1 (c :: t) = none := by
  unfold matchDirective1
  rw [expectLit_open_none c hc t]
  rfl

theorem matchDirective2_none_head (c : Char) (hc : c ≠ '<') (t : List Char) :
    matchDirective2 (c :: t) = none := by
  unfold matchDirective2
  rw [expectLit_open_none c hc t]
  rfl

theorem scanIncludes1Aux_nil (f : Nat) : scanIncludes1Aux f [] = [] := by
  cases f <;> rfl

theorem scanIncludes2Aux_nil (f : Nat) : scanIncludes2Aux f [] = [] := by
  cases f <;> rfl

theorem scanIncludes1Aux_skip (pre : List Char) :
    '<' ∉ pre → ∀ (l : List Char) (R : List (List Char)),
      (∀ f, l.length ≤ f → scanIncludes1Aux f l = R) →
      ∀ f, (pre ++ l).length ≤ f → scanIncludes1Aux f (pre ++ l) = R := by
  induction pre with
  | nil => intro _ l R hl f hf; exact hl f (by simpa using hf)
  | cons c p ih =>
    intro hpre l R hl f hf
    cases f with
    | zero => simp at hf
    | succ f =>
      rw [List.cons_append]
      unfold scanIncludes1Aux
      rw [matchDirective1_none_head c
        (by intro h; exact hpre (by rw [← h]; exact List.mem_cons_self c p)) (p ++ l)]
      exact ih (fun h => hpre (List.mem_cons_of_mem c h)) l R hl f
        (by simp only [List.length_cons, List.length_append] at hf ⊢; omega)

theorem scanIncludes2Aux_skip (pre : List Char) :
    '<' ∉ pre → ∀ (l : List Char) (R : List (List Char)),
      (∀ f, l.length ≤ f → scanIncludes2Aux f l = R) →
      ∀ f, (pre ++ l).length ≤ f → scanIncludes2Aux f (pre ++ l) = R := by
  induction pre with
  | nil => intro _ l R hl f hf; exact hl f (by simpa using hf)
  | cons c p ih =>
    intro hpre l R hl f hf
    cases f with
    | zero => simp at hf
    | succ f =>
      rw [List.cons_append]
      unfold scanIncludes2Aux
      rw [matchDirective2_none_head c
        (by intro h; exact hpre (by rw [← h]; exact List.mem_cons_self c p)) (p ++ l)]
      exact ih (fun h => hpre (List.mem_cons_of_mem c h)) l R hl f
        (by simp only [List.length_cons, List.length_append] at hf ⊢; omega)

theorem scanIncludes1Aux_step (f : Nat) (c : Char) (rest cap r : List Char)
    (h : matchDirective1 (c :: rest) = some (cap, r)) :
    scanIncludes1Aux (f + 1) (c :: rest) = cap :: scanIncludes1Aux f r := by
  conv_lhs => rw [scanIncludes1Aux]
  rw [h]

theorem scanIncludes2Aux_step (f : Nat) (c : Char) (rest cap r : List Char)
    (h : matchDirective2 (c :: rest) = some (cap, r)) :
    scanIncludes2Aux (f + 1) (c :: rest) =
      (match pickFileOrPage (parseAttrs cap) with
       | some v => v :: scanIncludes2Aux f r
       | none => scanIncludes2Aux f r) := by
  conv_lhs => rw [scanIncludes2Aux]
  rw [h]

theorem directiveIncludeText_length (w1 w2 w3 w4 : List Char) (q : Char)
    (F e suf : List Char) :
    (directiveIncludeText w1 w2 w3 w4 q F e suf).length =
      19 + (w1.length + w2.length + w3.length + w4.length +
        F.length + e.length + suf.length) := by
  simp [directiveIncludeText]
  omega

theorem scanIncludes1Aux_at_directive (w1 w2 w3 w4 : List Char) (q : Char)
    (F e suf : List Char) (hs : DirectiveShape w1 w2 w3 w4 q F e)
    (hsuf : '<' ∉ suf) :
    ∀ f, (directiveIncludeText w1 w2 w3 w4 q F e suf).length ≤ f →
      scanIncludes1Aux f (directiveIncludeText w1 w2 w3 w4 q F e suf) = [F] := by
  intro f hf
  have hlen := directiveIncludeText_length w1 w2 w3 w4 q F e suf
  cases f with
  | zero => omega
  | succ f =>
    rw [show directiveIncludeText w1 w2 w3 w4 q F e suf =
      '<' :: ('%' :: '@' ::
        (w1 ++ ('i' :: 'n' :: 'c' :: 'l' :: 'u' :: 'd' :: 'e' ::
          (w2 ++ ('f' :: 'i' :: 'l' :: 'e' ::
            (w3 ++ ('=' ::
              (w4 ++ (q :: (F ++ (q :: (e ++ ('%' :: '>' :: suf)))))))))))))
      from rfl]
    rw [scanIncludes1Aux_step f '<' _ F suf
      (matchDirective1_shape w1 w2 w3 w4 q F e suf hs)]
    have hsufscan : scanIncludes1Aux f suf = [] := by
      have h0 := scanIncludes1Aux_skip suf hsuf [] []
        (fun f2 _ => scanIncludes1Aux_nil f2) f
        (by simp only [List.append_nil]; omega)
      rwa [List.append_nil] at h0
    rw [hsufscan]

theorem scanIncludes2Aux_at_directive (w1 w2 w3 w4 : List Char) (q : Char)
    (F e suf : List Char) (hs : DirectiveShape w1 w2 w3 w4 q F e)
    (hsuf : '<' ∉ suf) :
    ∀ f, (directiveIncludeText w1 w2 w3 w4 q F e suf).length ≤ f →
      scanIncludes2Aux f (directiveIncludeText w1 w2 w3 w4 q F e suf) = [F] := by
  intro f hf
  have hlen := directiveIncludeText_length w1 w2 w3 w4 q F e suf
  obtain ⟨hw1, hw2, hw2ne, hw3, hw4, hq, hFne, hFc, hec⟩ := hs
  cases f with
  | zero => omega
  | succ f =>
    rw [show directiveIncludeText w1 w2 w3 w4 q F e suf =
      '<' :: ('%' :: '@' ::
        (w1 ++ ('i' :: 'n' :: 'c' :: 'l' :: 'u' :: 'd' :: 'e' ::
          (w2 ++ ('f' :: 'i' :: 'l' :: 'e' ::
            (w3 ++ ('=' ::
              (w4 ++ (q :: (F ++ (q :: (e ++ ('%' :: '>' :: suf)))))))))))))
      from rfl]
    rw [scanIncludes2Aux_step f '<' _
      ('f' :: 'i' :: 'l' :: 'e' :: (w3 ++ ('=' :: (w4 ++ (q :: (F ++ (q :: e)))))))
      suf
      (matchDirective2_shape w1 w2 w3 w4 q F e suf
        ⟨hw1, hw2, hw2ne, hw3, hw4, hq, hFne, hFc, hec⟩)]
    rw [parseAttrs_capture w3 w4 q F e hw3 hw4 hq hFc hec,
      pickFileOrPage_single F hFne]
    have hsufscan : scanIncludes2Aux f suf = [] := by
      have h0 := scanIncludes2Aux_skip suf hsuf [] []
        (fun f2 _ => scanIncludes2Aux_nil f2) f
        (by simp only [List.append_nil]; omega)
      rwa [List.append_nil] at h0
    rw [hsufscan]

theorem scanIncludes1_of_directive (pre w1 w2 w3 w4 : List Char) (q : Char)
    (F e suf : List Char) (hs : DirectiveShape w1 w2 w3 w4 q F e)
    (hpre : '<' ∉ pre) (hsuf : '<' ∉ suf) :
    scanIncludes1 (pre ++ directiveIncludeText w1 w2 w3 w4 q F e suf) = [F] := by
  unfold scanIncludes1
  exact scanIncludes1Aux_skip pre hpre _ [F]
    (scanIncludes1Aux_at_directive w1 w2 w3 w4 q F e suf hs hsuf) _ (le_refl _)

theorem scanIncludes2_of_directive (pre w1 w2 w3 w4 : List Char) (q : Char)
    (F e suf : List Char) (hs : DirectiveShape w1 w2 w3 w4 q F e)
    (hpre : '<' ∉ pre) (hsuf : '<' ∉ suf) :
    scanIncludes2 (pre ++ directiveIncludeText w1 w2 w3 w4 q F e suf) = [F] := by
  unfold scanIncludes2
  exact scanIncludes2Aux_skip pre hpre _ [F]
    (scanIncludes2Aux_at_directive w1 w2 w3 w4 q F e suf hs hsuf) _ (le_refl _)

/-- Both extraction passes fire on a well-shaped static directive include
preceded and followed by `<`-free text, so the include record appears twice. -/
theorem extractDirectiveIncludes_twice (pre w1 w2 w3 w4 : List Char) (q : Char)
    (F e suf : List Char) (hs : DirectiveShape w1 w2 w3 w4 q F e)
    (hpre : '<' ∉ pre) (hsuf : '<' ∉ suf) :
    extractDirectiveIncludes (pre ++ directiveIncludeText w1 w2 w3 w4 q F e suf) =
      [{ itype := .directive, target := ⟨F⟩ },
       { itype := .directive, target := ⟨F⟩ }] := by
  have hX : '<' ∉ ('%' :: '@' ::
      (w1 ++ ('i' :: 'n' :: 'c' :: 'l' :: 'u' :: 'd' :: 'e' ::
        (w2 ++ ('f' :: 'i' :: 'l' :: 'e' ::
          (w3 ++ ('=' ::
            (w4 ++ (q :: (F ++ (q :: (e ++ ('%' :: '>' :: suf))))))))))))) :=
    fun h => dirTail_ne_lt w1 w2 w3 w4 q F e suf hs hsuf '<' h rfl
  have hstrip : stripCommentsAndScripts
      (pre ++ directiveIncludeText w1 w2 w3 w4 q F e suf) =
      pre ++ directiveIncludeText w1 w2 w3 w4 q F e suf :=
    stripCommentsAndScripts_id pre _ hpre hX
  unfold extractDirectiveIncludes
  rw [hstrip, scanIncludes1_of_directive pre w1 w2 w3 w4 q F e suf hs hpre hsuf,
    scanIncludes2_of_directive pre w1 w2 w3 w4 q F e suf hs hpre hsuf]
  rfl

/-! ## `add_edge` is idempotent: the collapsed graph keeps one edge per pair -/

theorem addNode_self_mem (g : DepGraph) (n : String) : n ∈ (addNode g n).nodes := by
  unfold addNode
  split
  · assumption
  · simp

theorem addNode_preserves_mem (g : DepGraph) (n m : String) (h : m ∈ g.nodes) :
    m ∈ (addNode g n).nodes := by
  unfold addNode
  split
  · exact h
  · simp [h]

theorem addNode_of_mem (g : DepGraph) (n : String) (h : n ∈ g.nodes) :
    addNode g n = g := by
  unfold addNode
  rw [if_pos h]

theorem addEdge_mem_edge (g : DepGraph) (a b : String) :
    (a, b) ∈ (addEdge g a b).edges := by
  simp only [addEdge]
  split
  · assumption
  · simp

theorem addEdge_mem_a (g : DepGraph) (a b : String) : a ∈ (addEdge g a b).nodes := by
  simp only [addEdge]
  split
  · exact addNode_preserves_mem _ b a (addNode_self_mem g a)
  · exact addNode_preserves_mem _ b a (addNode_self_mem g a)

theorem addEdge_mem_b (g : DepGraph) (a b : String) : b ∈ (addEdge g a b).nodes := by
  simp only [addEdge]
  split
  · exact addNode_self_mem (addNode g a) b
  · exact addNode_self_mem (addNode g a) b

theorem addEdge_of_mem (g : DepGraph) (a b : String) (ha : a ∈ g.nodes)
    (hb : b ∈ g.nodes) (he : (a, b) ∈ g.edges) : addEdge g a b = g := by
  simp only [addEdge]
  rw [addNode_of_mem g a ha, addNode_of_mem g b hb, if_pos he]

theorem addEdge_twice (g : DepGraph) (a b : String) :
    addEdge (addEdge g a b) a b = addEdge g a b :=
  addEdge_of_mem _ a b (addEdge_mem_a g a b) (addEdge_mem_b g a b)
    (addEdge_mem_edge g a b)

/-- Processing the same resolvable include twice appends two log records but
collapses to a single graph edge. -/
theorem processIncludeList_pair (reg : Registry) (fid : String) (inc : IncludeRec)
    (t : String) (vb : Bool) (st : BuildState)
    (h : resolveIncludeOutcome reg fid inc = .matched t vb) :
    processIncludeList reg fid [inc, inc] st =
      { graph := addEdge st.graph fid t,
        deps := st.deps ++ [(fid, matchedDepRecord inc t vb),
          (fid, matchedDepRecord inc t vb)] } := by
  unfold processIncludeList
  simp only [List.foldl_cons, List.foldl_nil]
  simp only [processInclude_eq_applyOutcome, h, applyIncludeOutcome]
  rw [addEdge_twice, List.append_assoc]
  rfl

/-- C10 counterexample: the static directive include
`<%@ include file="a>b" %>` sits outside comments and script blocks (stripping
is the identity on this content), yet it is extracted only once — the
clean-content scan of `_extract_scriptlets` cannot match it because its `[^%>]+`
group cannot cross the `>` inside the attribute value — so it contributes one
record, not two. -/
theorem C10_counterexample_angle_value_extracted_once :
    stripCommentsAndScripts ("<%@ include file=\"a>b\" %>".data) =
      "<%@ include file=\"a>b\" %>".data ∧
    extractDirectiveIncludes ("<%@ include file=\"a>b\" %>".data) =
      [{ itype := .directive, target := "a>b" }] := by
  refine ⟨by decide, by decide⟩

/-- C10 (amended): a static directive include `<%@ include file=... %>` whose
quoted value avoids `"`, `'`, `%`, `>`, `<` and whose filler before `%>` avoids
`%`, `>`, `<`, `=`, embedded in otherwise `<`-free content, is extracted twice —
once by `_extract_includes` on the raw content and once by `_extract_scriptlets`
on the comment-stripped content — so when it resolves to a registry file it
contributes two records to the dependency log for the same ordered
(origin, target) pair while the collapsed graph gains only the single edge. -/
theorem C10_amended_directive_include_double_extraction
    (pre w1 w2 w3 w4 : List Char) (q : Char) (F e suf : List Char)
    (hs : DirectiveShape w1 w2 w3 w4 q F e) (hpre : '<' ∉ pre) (hsuf : '<' ∉ suf)
    (reg : Registry) (fid t : String) (vb : Bool) (st : BuildState)
    (h : resolveIncludeOutcome reg fid { itype := .directive, target := ⟨F⟩ } =
      .matched t vb) :
    extractDirectiveIncludes (pre ++ directiveIncludeText w1 w2 w3 w4 q F e suf) =
      [{ itype := .directive, target := ⟨F⟩ },
       { itype := .directive, target := ⟨F⟩ }] ∧
    processIncludeList reg fid
      (extractDirectiveIncludes (pre ++ directiveIncludeText w1 w2 w3 w4 q F e suf))
      st =
      { graph := addEdge st.graph fid t,
        deps := st.deps ++
          [(fid, matchedDepRecord { itype := .directive, target := ⟨F⟩ } t vb),
           (fid, matchedDepRecord { itype := .directive, target := ⟨F⟩ } t vb)] } := by
  have h2 := extractDirectiveIncludes_twice pre w1 w2 w3 w4 q F e suf hs hpre hsuf
  exact ⟨h2, by rw [h2]; exact processIncludeList_pair reg fid _ t vb st h⟩

theorem C10_amended_witness :
    extractDirectiveIncludes ([] ++ directiveIncludeText [' '] [' '] [] [] '"'
        "common/header.jsp".data [' '] []) =
      [{ itype := .directive, target := ⟨"common/header.jsp".data⟩ },
       { itype := .directive, target := ⟨"common/header.jsp".data⟩ }] ∧
    processIncludeList
      [("a_jsp", { path := "a.jsp", size := 1, lastModified := "t" }),
       ("common_header_jsp",
        { path := "common/header.jsp", size := 1, lastModified := "t" })]
      "a_jsp"
      (extractDirectiveIncludes ([] ++ directiveIncludeText [' '] [' '] [] [] '"'
        "common/header.jsp".data [' '] []))
      { graph := { nodes := ["a_jsp", "common_header_jsp"], edges := [] },
        deps := [] } =
      { graph := addEdge { nodes := ["a_jsp", "common_header_jsp"], edges := [] }
          "a_jsp" "common_header_jsp",
        deps := [] ++
          [("a_jsp", matchedDepRecord
            { itype := .directive, target := ⟨"common/header.jsp".data⟩ }
            "common_header_jsp" false),
           ("a_jsp", matchedDepRecord
            { itype := .directive, target := ⟨"common/header.jsp".data⟩ }
            "common_header_jsp" false)] } :=
  C10_amended_directive_include_double_extraction [] [' '] [' '] [] [] '"'
    "common/header.jsp".data [' '] []
    ⟨by decide, by decide, by decide, by decide, by decide, by decide, by decide,
      by decide, by decide⟩
    (by decide) (by decide)
    [("a_jsp", { path := "a.jsp", size := 1, lastModified := "t" }),
     ("common_header_jsp",
      { path := "common/header.jsp", size := 1, lastModified := "t" })]
    "a_jsp" "common_header_jsp" false
    { graph := { nodes := ["a_jsp", "common_header_jsp"], edges := [] },
      deps := [] }
    (by decide)

end JSPAnalyzer
